import Mathlib

/-!
Verification development for the toolman repository: a shallow embedding of
its Programmatic Tool-Calling (PTC) subsystem, generator builder and agent
loop, with theorems settling the frozen specification claims.

Go conventions used throughout the embedding:
* a Go `(T, error)` pair becomes `T × Option String` (`none` = nil error) or
  `Except String T` where only one of the two is meaningful;
* `[]byte` payloads that the code treats as text become `String`;
* a nil function pointer becomes `none` in an `Option` of a function type;
* machine floats only ever flow through the code as opaque configuration
  values, so they are modelled as `Rat` (only equality is ever used).
-/

set_option maxRecDepth 100000

namespace go

/-- Whether `needle` is a prefix of `hay` (character lists). -/
def isPrefixList (needle hay : List Char) : Bool :=
  match needle, hay with
  | [], _ => true
  | _ :: _, [] => false
  | n :: ns, h :: hs => n = h && isPrefixList ns hs

/-- Whether `needle` occurs as a contiguous substring of `hay`. -/
def containsList (hay needle : List Char) : Bool :=
  isPrefixList needle hay ||
    match hay with
    | [] => false
    | _ :: hs => containsList hs needle

/-- Go `strings.Contains(hay, needle)`: `needle` occurs as a contiguous
substring of `hay` (see the lemma `go.strContains_iff_infix` relating this
executable search to `List.IsInfix`). -/
def strContains (hay needle : String) : Bool :=
  containsList hay.data needle.data

/-- Lexicographic order on character lists (Go compares strings
byte-wise; on the ASCII names involved the two coincide). -/
def lexLe : List Char → List Char → Bool
  | [], _ => true
  | _ :: _, [] => false
  | a :: as, b :: bs => if a = b then lexLe as bs else decide (a < b)

/-- Go `a < b || a == b` on strings: the "alphabetical" order `sort.Slice`
and `sort.Strings` sort by. -/
def strLe (a b : String) : Bool :=
  lexLe a.data b.data

/-- Go `strings.Join(elems, sep)`. -/
def strJoin (sep : String) : List String → String
  | [] => ""
  | [s] => s
  | s :: rest => s ++ sep ++ strJoin sep rest

/-- One character of Go `strconv.Quote` (the `%q` verb): quote and backslash
are escaped, common control characters get their mnemonic escapes, all other
characters of the strings that flow through this code are printable and kept
as they are. -/
def quoteChar (c : Char) : String :=
  if c = '"' then "\\\""
  else if c = '\\' then "\\\\"
  else if c = '\n' then "\\n"
  else if c = '\t' then "\\t"
  else if c = '\r' then "\\r"
  else String.singleton c

/-- Go `fmt`'s `%q` verb on a string: the strconv.Quote rendering. -/
def quote (s : String) : String :=
  "\"" ++ String.join (s.data.map quoteChar) ++ "\""

end go

namespace schema

/-- The subtree of `schema.JSON` that the PTC adapter reads: `Type`,
`Properties` (a JSON object's map, modelled as an association list),
`Required` and `Items`.  The remaining fields (enum, description, nullable)
are never consulted by the code under verification. -/
inductive JSON where
  | mk (type : String) (properties : List (String × JSON))
      (required : List String) (items : Option JSON)

/-- Field accessor for `Type`. -/
def JSON.type : JSON → String
  | .mk t _ _ _ => t

/-- Field accessor for `Properties`. -/
def JSON.properties : JSON → List (String × JSON)
  | .mk _ p _ _ => p

/-- Field accessor for `Required`. -/
def JSON.required : JSON → List String
  | .mk _ _ r _ => r

/-- Field accessor for `Items`. -/
def JSON.items : JSON → Option JSON
  | .mk _ _ _ i => i

end schema

namespace tools

/-- `tools.Call`: one tool invocation emitted by the model.  The Go struct's
`Ref *Tool` back-pointer is modelled separately, paired with the call where
the agent loop needs it, because a `Tool` carries a function that itself
receives a `Call`. -/
structure Call where
  id : String
  name : String
  argument : String

/-- The signature of a Go tool callback
`func(ctx context.Context, call Call) (string, error)`.  The context
argument is dropped: none of the verified code paths consult it. -/
def Function : Type := Call → String × Option String

/-- `tools.Tool`.  `function = none` models a nil Go function pointer.
`responseSchema` is the field `part_006`'s `formatToolSignature` reads; it is
absent from the older snapshot of `tools.go` but present in the tools package
the PTC adapter compiles against (spec section 3: optional response schema). -/
structure Tool where
  name : String
  description : String
  argumentSchema : Option schema.JSON
  responseSchema : Option schema.JSON
  usePTC : Bool
  function : Option Function

/-- `tools.ProgramLanguage` is a Go string type. -/
abbrev ProgramLanguage : Type := String

/-- `tools.JavaScript = "js"`. -/
def JavaScript : ProgramLanguage := "js"

/-- `tools.Python = "python"`. -/
def Python : ProgramLanguage := "python"

/-- `tools.Go = "go"`. -/
def GoLang : ProgramLanguage := "go"

/-- `tools.Lua`: the constant's literal is not among the staged files; the
dispatch in `ptc.AdaptToolsToPTC` only ever compares it for equality. -/
def Lua : ProgramLanguage := "lua"

/-- Names of the three reserved sentinel tools `none`, `auto`, `required`
(`tools.ControlTools`); only their names are consulted by `SetToolConfig`. -/
def controlToolNames : List String := ["none", "auto", "required"]

end tools

namespace ptc

/-- The guardrail message for an empty script, as built by
`fmt.Errorf("error: %s", errMsg)` in `GuardRailJS`. -/
def guardEmptyMsg : String :=
  "error: RuntimeError: No code script provided. Rewrite the code immediately."

/-- The guardrail message for a script that logs. -/
def guardLogMsg : String :=
  "error: RuntimeError: Log functions (e.g., 'console.log' or 'print') are strictly FORBIDDEN in this environment. You must use return data via the function return only. Rewrite the code immediately."

/-- The guardrail message for a script that uses async constructs. -/
def guardAsyncMsg : String :=
  "error: RuntimeError: Async functions are strictly FORBIDDEN in this environment. You must use synchronous, blocking calls (e.g., 'const x = tool()', NOT 'await tool()'). Rewrite the code immediately."

/-- `GuardRailJS` from `part_006`: the static filter applied to a proposed
script before execution.  Returns the (unmodified) code together with the
`err.Error()` text of the rejection, if any; the IIFE-rewriting block of the
older draft is commented out in this version of the source and hence absent
here.  The logging side effects (`fmt.Printf`) are not modelled. -/
def GuardRailJS (code : String) : String × Option String :=
  if code = "" then
    (code, some guardEmptyMsg)
  else if go.strContains code "print( " || go.strContains code "console.log(" then
    (code, some guardLogMsg)
  else if go.strContains code "async " || go.strContains code "await" ||
      go.strContains code "async(" then
    (code, some guardAsyncMsg)
  else
    (code, none)

/-- Outcome of one `runtime.JS.RunString(code)` call of the embedded goja
interpreter (an external dependency, modelled by its observable outcome):
normal completion with the value of the last evaluated expression (`none`
models a nil / `undefined` result), a returned interpreter error, or a Go
panic that the executor's deferred handler recovers. -/
inductive RunOutcome (V : Type) where
  | value (v : Option V)
  | failure (msg : String)
  | panicked (msg : String)

/-- The response string `fmt.Sprintf("{\"error\": %q}", err.Error())` built
for an interpreter error. -/
def jsonErrObj (msg : String) : String :=
  "\x7b\"error\": " ++ go.quote msg ++ "\x7d"

/-- The response string `fmt.Sprintf("{\"error\": \"critical JS panic: %v\"}", r)`
built by the deferred panic handler (`%v`, not `%q`: the recovered value is
interpolated without quoting). -/
def jsonPanicObj (rendered : String) : String :=
  "\x7b\"error\": \"critical JS panic: " ++ rendered ++ "\"\x7d"

/-- The `code_execution` executor of `adaptToolsToJSPTC` (`part_006`).
`runString` is the session interpreter, threaded through an explicit state
`σ` (the Go code mutates the shared `runtime.JS` in place, guarded by the
session mutex); `marshal` is `json.Marshal` applied to the exported final
value; `codeArg` is the outcome of `json.Unmarshal(call.Argument, &arg)`
yielding the `code` field.  Returns the new session state and the Go
`(string, error)` pair.  The five-second interrupt timer is represented
inside `runString`'s possible failure outcomes. -/
def executor {σ V : Type} (runString : σ → String → σ × RunOutcome V)
    (marshal : V → Except String String) (st : σ)
    (codeArg : Except String String) : σ × String × Option String :=
  match codeArg with
  | .error e => (st, "", some e)
  | .ok c =>
    match GuardRailJS c with
    | (_, some msg) => (st, msg, none)
    | (code, none) =>
      match runString st code with
      | (st', .panicked r) => (st', jsonPanicObj r, none)
      | (st', .failure e) => (st', jsonErrObj e, none)
      | (st', .value none) => (st', "null", none)
      | (st', .value (some v)) =>
        match marshal v with
        | .error e => (st', "", some e)
        | .ok s => (st', s, none)

/-- The shapes a `bindToolToJSVM` wrapper value can take, named after the Go
expression that builds each one.  goja native functions throw only by
panicking; this wrapper never panics, so every outcome is a returned value,
never a thrown one. -/
inductive BindResult (J : Type) where
  | goError (msg : String)
  | errorMap (msg : String)
  | okFalseErrorMap (msg : String)
  | parsedValue (v : J)
  | rawString (s : String)

/-- The argument-count error message of `bindToolToJSVM` for more than one
argument. -/
def bindArityMsg (toolName : String) (n : Nat) : String :=
  "Error: " ++ toolName ++ " expects a single configuration object argument, but received " ++
    toString n ++ " arguments. Usage: " ++ toolName ++ "(\x7b key: val \x7d)"

/-- The zero-argument error of `bindToolToJSVM`:
`vm.NewGoError(fmt.Errorf("tool %s requires arguments", t.Name))`. -/
def bindNoArgsMsg (toolName : String) : String :=
  "tool " ++ toolName ++ " requires arguments"

/-- The JS wrapper that `bindToolToJSVM` (`part_006`) installs for a tool.
`A` are script-side argument values, `marshalArg` is
`json.Marshal(call.Argument(0).Export())`, `f` is the tool's Go function
applied to the marshalled argument bytes, and `unmarshalRes` is
`json.Unmarshal` on the tool's response (`some` when the response is valid
JSON).  The wrapper returns a goja value; it never panics, so no outcome is
a thrown JS error. -/
def bindToolWrapper {A J : Type} (toolName : String)
    (marshalArg : A → Except String String)
    (f : String → String × Option String)
    (unmarshalRes : String → Option J) (args : List A) : BindResult J :=
  if args.length > 1 then
    .errorMap (bindArityMsg toolName args.length)
  else
    match args with
    | [] => .goError (bindNoArgsMsg toolName)
    | a :: _ =>
      match marshalArg a with
      | .error e => .goError e
      | .ok jsonArgs =>
        match f jsonArgs with
        | (_, some e) => .okFalseErrorMap e
        | (res, none) =>
          match unmarshalRes res with
          | some parsed => .parsedValue parsed
          | none => .rawString res

/-- `ArgField` from `part_006`. -/
structure ArgField where
  name : String
  type : String
  required : Bool

/-- `mapJSONSchemaType` from `part_006` (`nil` schema maps to `"unknown"`). -/
def mapJSONSchemaType : Option schema.JSON → String
  | none => "unknown"
  | some s =>
    if s.type = "string" then "string"
    else if s.type = "number" || s.type = "integer" then "number"
    else if s.type = "boolean" then "boolean"
    else if s.type = "array" then "any[]"
    else if s.type = "object" then "object"
    else "unknown"

/-- `extractArgs` from `part_006`: collect one `ArgField` per schema property
and sort by name.  The Go code iterates a map (nondeterministic order) and
then applies `sort.Slice` with `Name <`; since map keys are distinct, the
result equals a stable insertion sort by `Name ≤` of the association list,
which is what is written here. -/
def extractArgs : Option schema.JSON → List ArgField
  | none => []
  | some s =>
    if s.properties.length = 0 then []
    else
      let args := s.properties.map fun p =>
        ArgField.mk p.1 (mapJSONSchemaType (some p.2)) (s.required.contains p.1)
      args.insertionSort fun a b => go.strLe a.name b.name = true

/-- `SchemaToTS` from `part_006`: recursively render a schema as a
TypeScript type string.  For the object case the Go code sorts the map keys
and looks each one up; with distinct keys that is the same as sorting the
association list by key, done here over `attach` for termination. -/
def SchemaToTS : Option schema.JSON → String
  | none => "any"
  | some (.mk ty props required items) =>
    if ty = "string" then "string"
    else if ty = "integer" || ty = "number" then "number"
    else if ty = "boolean" then "boolean"
    else if ty = "array" then
      match items with
      | some i => SchemaToTS (some i) ++ "[]"
      | none => "any[]"
    else if ty = "object" then
      if 0 < props.length then
        let sorted := props.attach.insertionSort fun a b => go.strLe a.1.1 b.1.1 = true
        "\x7b " ++
          String.join (sorted.map fun p =>
            p.1.1 ++ (if required.contains p.1.1 then "" else "?") ++ ": " ++
              SchemaToTS (some p.1.2) ++ "; ") ++
          "\x7d"
      else "Record<string, any>"
    else "any"
termination_by o => sizeOf o
decreasing_by
  · simp only [Option.some.sizeOf_spec, schema.JSON.mk.sizeOf_spec]
    omega
  · obtain ⟨⟨a, b⟩, hp⟩ := p
    have h1 : sizeOf (a, b) < sizeOf props := List.sizeOf_lt_of_mem hp
    simp only [Option.some.sizeOf_spec, schema.JSON.mk.sizeOf_spec,
      Prod.mk.sizeOf_spec] at *
    omega

/-- The fixed description preamble of the synthetic `code_execution` tool
(`part_006`, `tools.WithDescription`). -/
def codeExecutionPreamble : String :=
  "Execute top-level JavaScript in a persistent Goja runtime to call available Tool Functions.\n\nUse this tool ONLY when external Tool Functions are required to fetch or interact with data.\nThe user CANNOT see this tool's output — you must respond to them in normal text output.\n\nDEFAULT USAGE (REQUIRED): Write ONE complete batch script that performs all needed Function calls. Do NOT call Tool Functions one-by-one across turns.\n\nREPL is allowed ONLY if:\n- A Function returns /* Unknown Schema */\nAND\n- Another Function strictly requires a specific field from that result.\n\nRULES:\n- At most ONE script per turn.\n- Never call the same Function twice with identical arguments.\n- Variables persist. Use 'var' or reassign (do not redeclare let/const).\n- The LAST evaluated expression is returned automatically. NEVER use 'return;' or var assignment on last line.\n- Final line: Variable assignments evaluate to null. Your script MUST end with an object (e.g., '(\x7ba, b\x7d);') to successfully return data.\n- Synchronous only. No async/await or external APIs.\n\nAvailable JavaScript Tool Functions inside the runtime:"

/-- `getSystemFragmentJS` from `part_006`. -/
def getSystemFragmentJS : String :=
  "Your are an LLM-based AI Agent enhanced with Programmatic Tool-Calling (PTC).\nThe PTC tool at your disposal is the 'code_execution' tool, use it to interact with data!\n\nTool calls can be costly, use only when necessary to fetch or interact with data, and write compact code.\n\n# JavaScript Runtime (Goja) - Accessible through 'code_execution' Tool\n\n- Write standard top-level JS. No async/await, no logging.\n- Variables persist across turns. Use 'var' (do not redeclare let/const).\n- The LAST evaluated expression is returned automatically. NEVER use 'return;' or var assignment on last line.\n- Final line: Variable assignments evaluate to null. Your script MUST end with an object (e.g., '(\x7ba, b\x7d);') to successfully return data.\n- Tool Functions are deterministic. NEVER call a Function twice with identical arguments. Read your history.\n\n## When To Use This Tool\nUse 'code_execution' ONLY if external Tool Functions are required.\nIf the request can be answered with reasoning or general knowledge → respond user directly in plain text (do NOT call the tool).\n\n## Default Execution Strategy — SINGLE BATCH (Required)\nBefore writing code, determine if intermediate outputs are strictly required. \nYour default behavior MUST be to write the entire solution in a SINGLE script. Batch all independent Function calls together.\n\nExample (Correct Default Strategy):\nvar user = searchUsers(\x7b query: \"john\" \x7d); // returns 'unknown'\nvar emailSent = sendEmail(\x7b body: \"Hello, let's meet.\" \x7d); // returns 'boolean'\n(\x7buser, emailSent\x7d); // Returns both results in a single object. No need to yield/pause.\n\n### The ONLY Exception: REPL Yielding\nUse REPL IF AND ONLY IF:\n1) Function A returns /* Unknown Schema */, AND\n2) Another Function B strictly requires a specific field from A’s result.\n\nYield control (STOP) IF AND ONLY IF Function A has an /* Unknown Schema */ AND Function B strictly requires a property from Function A's output.\nExecute Function A, put its result on the last line, and STOP. DO NOT guess property names.\n\n## Finishing the Task (CRITICAL)\nThis tool ONLY fetches and interacts with data. The user CANNOT see the output of this tool. \nWhen you have the final answer, you MUST STOP using 'code_execution'. \nTo finish, YOU MUST write a normal, plain-text conversational response to the user.\n\nDo NOT call the tool again unless new information is required.\n\n# Respond the User\nWhen you have completed the task, you MUST respond the users request directly in text!\n"

/-- `formatToolSignature` from `part_006`. -/
def formatToolSignature (t : tools.Tool) : String :=
  let args := extractArgs t.argumentSchema
  let fields := args.map fun a =>
    "  " ++ (if a.required then a.name else a.name ++ "?") ++ ": " ++ a.type
  let argBlock :=
    if 0 < fields.length then "\x7b\n" ++ go.strJoin ",\n" fields ++ "\n\x7d" else "\x7b\x7d"
  let isKnown :=
    match t.responseSchema with
    | none => false
    | some s =>
      if s.type = "" then false
      else if s.type = "object" && s.properties.length = 0 then false
      else true
  let returnType := if isKnown then SchemaToTS t.responseSchema else "unknown"
  let jsDocWarning := if isKnown then "" else " /* Unknown Schema */"
  "/**\n * " ++ t.description ++ "\n * @returns \x7b" ++ returnType ++ "\x7d" ++
    jsDocWarning ++ "\n */\ndeclare function " ++ t.name ++ "(params: " ++ argBlock ++
    "): " ++ returnType ++ ";"

/-- The argument schema of the synthetic tool, `schema.From(CodeArgs{})`:
one required string field `code`. -/
def codeArgsSchema : schema.JSON :=
  .mk "object" [("code", .mk "string" [] [] none)] ["code"] none

/-- `adaptToolsToJSPTC` from `part_006`, at the level of its pure outputs:
the synthetic tool and the system fragment.  `execFn` stands for the
executor closure over the session runtime whose behaviour is modelled by
`ptc.executor`; binding each tool into the VM (`bindToolToJSVM`, modelled by
`ptc.bindToolWrapper`) mutates only the shared session and, with a valid VM,
`vm.Set` returns nil, so the error return of the Go function does not fire. -/
def adaptToolsToJSPTC (execFn : tools.Function) (inputTools : List tools.Tool) :
    tools.Tool × String :=
  let descriptions := inputTools.map formatToolSignature
  let docsFragment := go.strJoin "\n\n" descriptions
  let ptcTool : tools.Tool :=
    { name := "code_execution"
      description := codeExecutionPreamble ++ "\n\n" ++ docsFragment
      argumentSchema := some codeArgsSchema
      responseSchema := none
      usePTC := false
      function := some execFn }
  let systemFragment :=
    "\n\n" ++ getSystemFragmentJS ++
      "\n## Available JavaScript Tool Functions inside the runtime:\n\n" ++ docsFragment
  (ptcTool, systemFragment)

/-- `AdaptToolsToPTC` from `ptc.go`: dispatch on the target language; only
JavaScript (and the default branch) are implemented. -/
def AdaptToolsToPTC (execFn : tools.Function) (ptcTools : List tools.Tool)
    (language : tools.ProgramLanguage) : Except String (tools.Tool × String) :=
  if language = tools.JavaScript then .ok (adaptToolsToJSPTC execFn ptcTools)
  else if language = tools.Python then .error "ptc python not implemented"
  else if language = tools.GoLang then .error "ptc go not implemented"
  else if language = tools.Lua then .error "ptc lua not implemented"
  else .ok (adaptToolsToJSPTC execFn ptcTools)

/-- `ExtractPTCTools` from `ptc.go`: partition the input tools by the
`UsePTC` flag, preserving order (the Go loop appends to one of two slices). -/
def ExtractPTCTools (inputTools : List tools.Tool) :
    List tools.Tool × List tools.Tool :=
  (inputTools.filter fun t => !t.usePTC, inputTools.filter fun t => t.usePTC)

end ptc

namespace gen

/-- `gen.Model`: the (provider, name) identifier; the open `Config` mapping
is never consulted by the verified code. -/
structure Model where
  provider : String
  name : String

/-- The heap cells behind the pointer-valued `Request` parameters, one list
per pointed-to Go type.  A Go pointer becomes an index into the list of its
type; `nil` becomes `none` at the field.  Builder methods only ever allocate
fresh cells (`&temperature`, `cp := *b.Request.X; &cp`), so a store is only
ever extended, which is what the frame theorems exploit. -/
structure Store where
  floats : List Rat
  ints : List Int
  bools : List Bool
  schemas : List schema.JSON
  toolCells : List tools.Tool

/-- Allocate a float cell; returns the extended store and the new index. -/
def Store.allocFloat (st : Store) (v : Rat) : Store × Nat :=
  ({ st with floats := st.floats ++ [v] }, st.floats.length)

/-- Allocate an int cell. -/
def Store.allocInt (st : Store) (v : Int) : Store × Nat :=
  ({ st with ints := st.ints ++ [v] }, st.ints.length)

/-- Allocate a bool cell. -/
def Store.allocBool (st : Store) (v : Bool) : Store × Nat :=
  ({ st with bools := st.bools ++ [v] }, st.bools.length)

/-- Allocate a schema cell. -/
def Store.allocSchema (st : Store) (v : schema.JSON) : Store × Nat :=
  ({ st with schemas := st.schemas ++ [v] }, st.schemas.length)

/-- Allocate a tool cell. -/
def Store.allocTool (st : Store) (v : tools.Tool) : Store × Nat :=
  ({ st with toolCells := st.toolCells ++ [v] }, st.toolCells.length)

/-- Default schema value used only for out-of-bounds reads that a
well-formed generator never performs. -/
instance : Inhabited schema.JSON := ⟨.mk "" [] [] none⟩

/-- Default tool value used only for out-of-bounds reads that a well-formed
generator never performs. -/
instance : Inhabited tools.Tool :=
  ⟨{ name := "", description := "", argumentSchema := none, responseSchema := none,
     usePTC := false, function := none }⟩

/-- `gen.Request` (the PTC-aware version used by the generator in
`tools.go`): pointer-valued decoding parameters are store indices, slices
are lists, the cancellation context is an opaque handle kept by reference. -/
structure Request where
  contextRef : Option Nat
  stream : Bool
  model : Model
  systemPrompt : String
  outputSchema : Option Nat
  strictOutput : Bool
  ptcLanguage : tools.ProgramLanguage
  ptcSystemFragment : String
  tools : List tools.Tool
  toolConfig : Option Nat
  thinkingBudget : Option Nat
  thinkingParts : Option Nat
  topP : Option Nat
  topK : Option Nat
  temperature : Option Nat
  maxTokens : Option Nat
  frequencyPenalty : Option Nat
  presencePenalty : Option Nat
  stopSequences : List String

/-- `gen.Generator`.  The `Prompter` (provider) and the `Runtime` session
pointer are omitted: no builder method writes the `Request` through either,
and the session's own behaviour is modelled in the `ptc` namespace. -/
structure Generator where
  request : Request

/-- Copy one nullable float pointer as `clone` does:
`cp := *b.Request.X; bb.Request.X = &cp` becomes reading the old cell and
allocating a fresh one with the same value. -/
def cloneFloatCell (st : Store) : Option Nat → Store × Option Nat
  | none => (st, none)
  | some i =>
    let p := st.allocFloat (st.floats.getD i default)
    (p.1, some p.2)

/-- Copy one nullable int pointer (see `cloneFloatCell`). -/
def cloneIntCell (st : Store) : Option Nat → Store × Option Nat
  | none => (st, none)
  | some i =>
    let p := st.allocInt (st.ints.getD i default)
    (p.1, some p.2)

/-- Copy one nullable bool pointer (see `cloneFloatCell`). -/
def cloneBoolCell (st : Store) : Option Nat → Store × Option Nat
  | none => (st, none)
  | some i =>
    let p := st.allocBool (st.bools.getD i default)
    (p.1, some p.2)

/-- Copy one nullable schema pointer (see `cloneFloatCell`). -/
def cloneSchemaCell (st : Store) : Option Nat → Store × Option Nat
  | none => (st, none)
  | some i =>
    let p := st.allocSchema (st.schemas.getD i default)
    (p.1, some p.2)

/-- Copy one nullable tool pointer (see `cloneFloatCell`). -/
def cloneToolCell (st : Store) : Option Nat → Store × Option Nat
  | none => (st, none)
  | some i =>
    let p := st.allocTool (st.toolCells.getD i default)
    (p.1, some p.2)

/-- `(*Generator).clone` from `tools.go`: copy the struct, deep-copy every
non-nil pointer-valued parameter in the order the Go code does, copy the
`Tools` and `StopSequences` slices (list values here), and keep the context
handle by reference. -/
def Generator.clone (st : Store) (b : Generator) : Store × Generator :=
  let r := b.request
  let (st, outputSchema) := cloneSchemaCell st r.outputSchema
  let (st, toolConfig) := cloneToolCell st r.toolConfig
  let (st, presencePenalty) := cloneFloatCell st r.presencePenalty
  let (st, frequencyPenalty) := cloneFloatCell st r.frequencyPenalty
  let (st, temperature) := cloneFloatCell st r.temperature
  let (st, topP) := cloneFloatCell st r.topP
  let (st, topK) := cloneIntCell st r.topK
  let (st, maxTokens) := cloneIntCell st r.maxTokens
  let (st, thinkingBudget) := cloneIntCell st r.thinkingBudget
  let (st, thinkingParts) := cloneBoolCell st r.thinkingParts
  (st,
    ⟨{ r with
        outputSchema := outputSchema
        toolConfig := toolConfig
        presencePenalty := presencePenalty
        frequencyPenalty := frequencyPenalty
        temperature := temperature
        topP := topP
        topK := topK
        maxTokens := maxTokens
        thinkingBudget := thinkingBudget
        thinkingParts := thinkingParts }⟩)

/-- `(*Generator).adaptPTCTools` from `tools.go`: partition, adapt the PTC
tools for the request's target language, set the PTC system fragment, and on
an adapter error fall back to passing the PTC tools through unchanged.
`EnsureRuntimeSession` touches only the shared runtime session, never the
request, and the warning log has no observable effect; both are omitted. -/
def Generator.adaptPTCTools (execFn : tools.Function) (b : Generator)
    (tool : List tools.Tool) : Generator × List tools.Tool :=
  let (bellmanTools, PTCTools) := ptc.ExtractPTCTools tool
  if 0 < PTCTools.length then
    match ptc.AdaptToolsToPTC execFn PTCTools b.request.ptcLanguage with
    | .error _ =>
      ({ b with request := { b.request with ptcSystemFragment := "" } },
        bellmanTools ++ PTCTools)
    | .ok (unifiedPTCTool, systemFragment) =>
      ({ b with request := { b.request with ptcSystemFragment := systemFragment } },
        bellmanTools ++ [unifiedPTCTool])
  else
    ({ b with request := { b.request with ptcSystemFragment := "" } }, bellmanTools)

/-- `(*Generator).SetTools`. -/
def Generator.SetTools (execFn : tools.Function) (st : Store) (b : Generator)
    (tool : List tools.Tool) : Store × Generator :=
  let (st, bb) := b.clone st
  let (bb, bellmanTools) := bb.adaptPTCTools execFn tool
  (st, { bb with request := { bb.request with tools := bellmanTools } })

/-- `(*Generator).AddTools`. -/
def Generator.AddTools (execFn : tools.Function) (st : Store) (b : Generator)
    (tool : List tools.Tool) : Store × Generator :=
  Generator.SetTools execFn st b (b.request.tools ++ tool)

/-- `(*Generator).Model`. -/
def Generator.Model (st : Store) (b : Generator) (model : Model) : Store × Generator :=
  let (st, bb) := b.clone st
  (st, { bb with request := { bb.request with model := model } })

/-- `(*Generator).System`. -/
def Generator.System (st : Store) (b : Generator) (p : String) : Store × Generator :=
  let (st, bb) := b.clone st
  (st, { bb with request := { bb.request with systemPrompt := p } })

/-- `(*Generator).Output`: the caller's `*schema.JSON` is modelled as a
fresh cell holding the passed value (`none` for nil). -/
def Generator.Output (st : Store) (b : Generator) (s : Option schema.JSON) :
    Store × Generator :=
  let (st, bb) := b.clone st
  match s with
  | none => (st, { bb with request := { bb.request with outputSchema := none } })
  | some v =>
    let (st, j) := st.allocSchema v
    (st, { bb with request := { bb.request with outputSchema := some j } })

/-- `(*Generator).StrictOutput`. -/
def Generator.StrictOutput (st : Store) (b : Generator) (strict : Bool) :
    Store × Generator :=
  let (st, bb) := b.clone st
  (st, { bb with request := { bb.request with strictOutput := strict } })

/-- `(*Generator).SetToolConfig`: record the choice in a fresh cell and, for
a non-sentinel tool, replace the tool set with exactly that tool. -/
def Generator.SetToolConfig (st : Store) (b : Generator) (tool : tools.Tool) :
    Store × Generator :=
  let (st, bb) := b.clone st
  let (st, j) := st.allocTool tool
  let bb := { bb with request := { bb.request with toolConfig := some j } }
  (st,
    if tools.controlToolNames.contains tool.name then bb
    else { bb with request := { bb.request with tools := [tool] } })

/-- `(*Generator).SetPTCLanguage` from `tools.go` (PTC version): records the
language on the clone, then evaluates `b.SetTools(bb.Request.Tools...)` on
the ORIGINAL generator and discards its result, so only that call's store
and session effects remain. -/
def Generator.SetPTCLanguage (execFn : tools.Function) (st : Store) (b : Generator)
    (language : tools.ProgramLanguage) : Store × Generator :=
  let (st, bb) := b.clone st
  let bb := { bb with request := { bb.request with ptcLanguage := language } }
  let (st, _) := Generator.SetTools execFn st b bb.request.tools
  (st, bb)

/-- `(*Generator).StopAt`. -/
def Generator.StopAt (st : Store) (b : Generator) (stop : List String) :
    Store × Generator :=
  let (st, bb) := b.clone st
  (st, { bb with request := { bb.request with stopSequences := stop } })

/-- `(*Generator).Temperature`: `&temperature` is a fresh allocation. -/
def Generator.Temperature (st : Store) (b : Generator) (temperature : Rat) :
    Store × Generator :=
  let (st, bb) := b.clone st
  let (st, j) := st.allocFloat temperature
  (st, { bb with request := { bb.request with temperature := some j } })

/-- `(*Generator).FrequencyPenalty`. -/
def Generator.FrequencyPenalty (st : Store) (b : Generator) (freq : Rat) :
    Store × Generator :=
  let (st, bb) := b.clone st
  let (st, j) := st.allocFloat freq
  (st, { bb with request := { bb.request with frequencyPenalty := some j } })

/-- `(*Generator).PresencePenalty`. -/
def Generator.PresencePenalty (st : Store) (b : Generator) (prec : Rat) :
    Store × Generator :=
  let (st, bb) := b.clone st
  let (st, j) := st.allocFloat prec
  (st, { bb with request := { bb.request with presencePenalty := some j } })

/-- `(*Generator).TopP`. -/
def Generator.TopP (st : Store) (b : Generator) (topP : Rat) : Store × Generator :=
  let (st, bb) := b.clone st
  let (st, j) := st.allocFloat topP
  (st, { bb with request := { bb.request with topP := some j } })

/-- `(*Generator).TopK`. -/
def Generator.TopK (st : Store) (b : Generator) (topK : Int) : Store × Generator :=
  let (st, bb) := b.clone st
  let (st, j) := st.allocInt topK
  (st, { bb with request := { bb.request with topK := some j } })

/-- `(*Generator).WithContext`: the handle is stored by reference. -/
def Generator.WithContext (st : Store) (b : Generator) (ctx : Nat) :
    Store × Generator :=
  let (st, bb) := b.clone st
  (st, { bb with request := { bb.request with contextRef := some ctx } })

/-- `(*Generator).MaxTokens`. -/
def Generator.MaxTokens (st : Store) (b : Generator) (maxTokens : Int) :
    Store × Generator :=
  let (st, bb) := b.clone st
  let (st, j) := st.allocInt maxTokens
  (st, { bb with request := { bb.request with maxTokens := some j } })

/-- `(*Generator).ThinkingBudget`. -/
def Generator.ThinkingBudget (st : Store) (b : Generator) (thinkingBudget : Int) :
    Store × Generator :=
  let (st, bb) := b.clone st
  let (st, j) := st.allocInt thinkingBudget
  (st, { bb with request := { bb.request with thinkingBudget := some j } })

/-- `(*Generator).IncludeThinkingParts`. -/
def Generator.IncludeThinkingParts (st : Store) (b : Generator) (thinkingParts : Bool) :
    Store × Generator :=
  let (st, bb) := b.clone st
  let (st, j) := st.allocBool thinkingParts
  (st, { bb with request := { bb.request with thinkingParts := some j } })

/-- The observable ("byte-equal") content of a request: every pointer field
dereferenced through the store. -/
structure RequestView where
  contextRef : Option Nat
  stream : Bool
  model : Model
  systemPrompt : String
  outputSchema : Option schema.JSON
  strictOutput : Bool
  ptcLanguage : tools.ProgramLanguage
  ptcSystemFragment : String
  toolConfig : Option tools.Tool
  tools : List tools.Tool
  thinkingBudget : Option Int
  thinkingParts : Option Bool
  topP : Option Rat
  topK : Option Int
  temperature : Option Rat
  maxTokens : Option Int
  frequencyPenalty : Option Rat
  presencePenalty : Option Rat
  stopSequences : List String

/-- Dereference a request against a store. -/
def view (st : Store) (r : Request) : RequestView where
  contextRef := r.contextRef
  stream := r.stream
  model := r.model
  systemPrompt := r.systemPrompt
  outputSchema := r.outputSchema.bind fun i => st.schemas[i]?
  strictOutput := r.strictOutput
  tools := r.tools
  toolConfig := r.toolConfig.bind fun i => st.toolCells[i]?
  thinkingBudget := r.thinkingBudget.bind fun i => st.ints[i]?
  thinkingParts := r.thinkingParts.bind fun i => st.bools[i]?
  topP := r.topP.bind fun i => st.floats[i]?
  topK := r.topK.bind fun i => st.ints[i]?
  temperature := r.temperature.bind fun i => st.floats[i]?
  maxTokens := r.maxTokens.bind fun i => st.ints[i]?
  frequencyPenalty := r.frequencyPenalty.bind fun i => st.floats[i]?
  presencePenalty := r.presencePenalty.bind fun i => st.floats[i]?
  stopSequences := r.stopSequences
  ptcLanguage := r.ptcLanguage
  ptcSystemFragment := r.ptcSystemFragment

/-- An optional pointer is in bounds. -/
def WFidx (len : Nat) : Option Nat → Prop
  | none => True
  | some i => i < len

/-- Every pointer of the request is a valid cell of the store. -/
structure WellFormed (st : Store) (r : Request) : Prop where
  outputSchema : WFidx st.schemas.length r.outputSchema
  toolConfig : WFidx st.toolCells.length r.toolConfig
  thinkingBudget : WFidx st.ints.length r.thinkingBudget
  thinkingParts : WFidx st.bools.length r.thinkingParts
  topP : WFidx st.floats.length r.topP
  topK : WFidx st.ints.length r.topK
  temperature : WFidx st.floats.length r.temperature
  maxTokens : WFidx st.ints.length r.maxTokens
  frequencyPenalty : WFidx st.floats.length r.frequencyPenalty
  presencePenalty : WFidx st.floats.length r.presencePenalty

/-- One builder-method call with its argument, for quantifying over call
sequences. -/
inductive BuilderCall where
  | model (m : Model)
  | system (s : String)
  | output (s : Option schema.JSON)
  | strictOutput (strict : Bool)
  | setTools (ts : List tools.Tool)
  | addTools (ts : List tools.Tool)
  | setToolConfig (t : tools.Tool)
  | setPTCLanguage (l : tools.ProgramLanguage)
  | stopAt (stop : List String)
  | temperature (t : Rat)
  | frequencyPenalty (f : Rat)
  | presencePenalty (p : Rat)
  | topP (p : Rat)
  | topK (k : Int)
  | withContext (ctx : Nat)
  | maxTokens (m : Int)
  | thinkingBudget (tb : Int)
  | includeThinkingParts (b : Bool)

/-- Apply one builder call. -/
def applyCall (execFn : tools.Function) (st : Store) (b : Generator) :
    BuilderCall → Store × Generator
  | .model m => Generator.Model st b m
  | .system s => Generator.System st b s
  | .output s => Generator.Output st b s
  | .strictOutput strict => Generator.StrictOutput st b strict
  | .setTools ts => Generator.SetTools execFn st b ts
  | .addTools ts => Generator.AddTools execFn st b ts
  | .setToolConfig t => Generator.SetToolConfig st b t
  | .setPTCLanguage l => Generator.SetPTCLanguage execFn st b l
  | .stopAt stop => Generator.StopAt st b stop
  | .temperature t => Generator.Temperature st b t
  | .frequencyPenalty f => Generator.FrequencyPenalty st b f
  | .presencePenalty p => Generator.PresencePenalty st b p
  | .topP p => Generator.TopP st b p
  | .topK k => Generator.TopK st b k
  | .withContext ctx => Generator.WithContext st b ctx
  | .maxTokens m => Generator.MaxTokens st b m
  | .thinkingBudget tb => Generator.ThinkingBudget st b tb
  | .includeThinkingParts bl => Generator.IncludeThinkingParts st b bl

/-- Apply a sequence of builder calls, each to the generator returned by the
previous one. -/
def applyCalls (execFn : tools.Function) : Store × Generator → List BuilderCall →
    Store × Generator
  | p, [] => p
  | (st, b), c :: cs => applyCalls execFn (applyCall execFn st b c) cs

end gen

namespace prompt

/-- Prompt entries.  Modelled from the spec: the prompt package is a
dependency outside the staged sources; section 3 gives the four tagged
variants and the constructors `AsToolCall(id, name, arguments)` and
`AsToolResponse(id, name, response)` used by the agent loop.  The optional
binary payload of a user entry is never consulted by the loop. -/
inductive Prompt where
  | user (text : String)
  | assistant (text : String)
  | toolCall (id name argument : String)
  | toolResponse (id name response : String)

end prompt

namespace agent

/-- One provider response as the agent loop observes it.  Modelled from the
spec: the Response type lives in the dependency outside the staged sources;
exactly one of text or tool calls is meaningful (`IsTools`/`AsTools`), and
each decoded tool call carries a re-wired `Ref` back-pointer (`none` models
a tool absent from the local setup). -/
inductive ModelResp where
  | text (t : String)
  | toolCalls (calls : List (tools.Call × Option tools.Tool))

/-- `callbackResult` from `part_014`. -/
structure callbackResult where
  index : Nat
  id : String
  name : String
  response : String
  error : Option String

/-- The zero value `make([]callbackResult, n)` fills slots with. -/
instance : Inhabited callbackResult := ⟨⟨0, "", "", "", none⟩⟩

/-- The zero value of a call/ref pair, for the unreachable out-of-range
default of list indexing. -/
instance : Inhabited tools.Call := ⟨⟨"", "", ""⟩⟩

/-- `callback.Ref.Function(ctx, callback)`: both `none` branches are
unreachable once the loop's pre-validation has passed. -/
def callFunction (ref : Option tools.Tool) (c : tools.Call) : String × Option String :=
  match ref with
  | some t =>
    match t.function with
    | some f => f c
    | none => ("", none)
  | none => ("", none)

/-- The `callbackResult` recorded for slot `i`. -/
def mkCallbackResult (i : Nat) (p : tools.Call × Option tools.Tool) : callbackResult :=
  { index := i, id := p.1.id, name := p.1.name,
    response := (callFunction p.2 p.1).1, error := (callFunction p.2 p.1).2 }

/-- `executeCallbacksSequential` from `part_014`: one result per callback,
in arrival order, `results[i]` built from `callbacks[i]`. -/
def executeCallbacksSequential (callbacks : List (tools.Call × Option tools.Tool)) :
    List callbackResult :=
  callbacks.enum.map fun p => mkCallbackResult p.1 p.2

/-- `executeCallbacksParallel` from `part_014`:
`results := make([]callbackResult, n)` and each goroutine writes
`results[index] = ...` for its own index.  The scheduler's interleaving is
modelled as the order `sched` in which goroutine writes land; the semaphore
bounds how many run at once but never which slot a write lands in. -/
def executeCallbacksParallel (sched : List Nat)
    (callbacks : List (tools.Call × Option tools.Tool)) : List callbackResult :=
  sched.foldl
    (fun results j => results.set j (mkCallbackResult j (callbacks.getD j default)))
    (callbacks.map fun _ => default)

/-- The pre-validation loop of `Run`: the first callback with a nil `Ref` or
nil `Function` yields the terminal error message. -/
def validateCallbacks : List (tools.Call × Option tools.Tool) → Option String
  | [] => none
  | (c, ref) :: rest =>
    match ref with
    | none => some ("tool " ++ c.name ++ " not found in local setup")
    | some t =>
      match t.function with
      | none => some ("tool " ++ c.name ++ " has no callback function attached")
      | some _ => validateCallbacks rest

/-- The result-processing loop shared by `Run` and `RunWithToolsOnly`:
append the tool-call prompt for `callbacks[cbResult.Index]`, terminate with
the tool's error if the call failed, else append the tool-response prompt
and continue. -/
def appendResults (callbacks : List (tools.Call × Option tools.Tool)) :
    List callbackResult → List prompt.Prompt → Except String (List prompt.Prompt)
  | [], prompts => .ok prompts
  | r :: rest, prompts =>
    let callback := (callbacks.getD r.index default).1
    let prompts := prompts ++ [prompt.Prompt.toolCall callback.id callback.name callback.argument]
    match r.error with
    | some e =>
      .error ("tool " ++ r.name ++ " failed: " ++ e ++ ", arg: " ++ callback.argument)
    | none =>
      appendResults callbacks rest
        (prompts ++ [prompt.Prompt.toolResponse r.id r.name r.response])

/-- `agent.Result[T]`.  The usage-metadata accumulation of the Go struct is
omitted: it never feeds back into the loop's control flow. -/
structure Result (T : Type) where
  prompts : List prompt.Prompt
  result : T
  depth : Nat

/-- The dispatch step of one turn: sequential for `parallelism ≤ 1`, else
the bounded-parallel variant under the turn's write schedule. -/
def dispatchCallbacks (parallelism : Nat) (sched : Nat → Nat → List Nat) (i : Nat)
    (callbacks : List (tools.Call × Option tools.Tool)) : List callbackResult :=
  if parallelism ≤ 1 then executeCallbacksSequential callbacks
  else executeCallbacksParallel (sched i callbacks.length) callbacks

/-- The loop body of `Run[T]` from `part_014`.  The provider
(`g.Prompt(prompts...)`) is modelled by the scripted list `turns` of its
successive answers (`.error` a failed prompt, an exhausted list a provider
that cannot answer); the final-payload decode (`resp.AsText` for a string
result, `resp.Unmarshal` otherwise) is `decode`.  The output-schema
installation before the loop configures the request and therefore only
which answers the provider gives, which `turns` ranges over.  `fuel` is the
remaining `maxDepth - i` of the Go `for` loop. -/
def runAux {T : Type} (decode : String → Except String T) (parallelism : Nat)
    (sched : Nat → Nat → List Nat) (maxDepth : Nat) :
    Nat → List (Except String ModelResp) → List prompt.Prompt →
      Except String (Result T)
  | 0, _, _ => .error ("max depth " ++ toString maxDepth ++ " reached")
  | fuel + 1, turns, prompts =>
    let i := maxDepth - (fuel + 1)
    match turns with
    | [] => .error ("failed to prompt: no provider response, at depth " ++ toString i)
    | .error e :: _ => .error ("failed to prompt: " ++ e ++ ", at depth " ++ toString i)
    | .ok (.text t) :: _ =>
      match decode t with
      | .error e =>
        .error ("could not unmarshal text response: " ++ e ++ ", at depth " ++ toString i)
      | .ok result => .ok { prompts := prompts, result := result, depth := i }
    | .ok (.toolCalls callbacks) :: rest =>
      match validateCallbacks callbacks with
      | some e => .error e
      | none =>
        match appendResults callbacks (dispatchCallbacks parallelism sched i callbacks)
            prompts with
        | .error e => .error e
        | .ok prompts => runAux decode parallelism sched maxDepth fuel rest prompts

/-- `Run[T]` from `part_014`. -/
def Run {T : Type} (decode : String → Except String T) (maxDepth parallelism : Nat)
    (sched : Nat → Nat → List Nat) (turns : List (Except String ModelResp))
    (prompts : List prompt.Prompt) : Except String (Result T) :=
  runAux decode parallelism sched maxDepth maxDepth turns prompts

/-- `customResultCalculatedTool` from `part_014`. -/
def customResultCalculatedTool : String := "__return_result_tool__"

/-- Outcome of `RunWithToolsOnly`'s pre-validation loop. -/
inductive WTOCheck (T : Type) where
  | finish (r : Except String T)
  | fail (e : String)
  | proceed

/-- The pre-validation loop of `RunWithToolsOnly`: for each callback in
order, first the sentinel check (whose argument is unmarshalled into `T` by
`decodeArg`), then the `Ref`/`Function` checks of `Run`. -/
def validateCallbacksWTO {T : Type} (decodeArg : String → Except String T) :
    List (tools.Call × Option tools.Tool) → WTOCheck T
  | [] => .proceed
  | (c, ref) :: rest =>
    if c.name = customResultCalculatedTool then .finish (decodeArg c.argument)
    else
      match ref with
      | none => .fail ("tool " ++ c.name ++ " not found in local setup")
      | some t =>
        match t.function with
        | none => .fail ("tool " ++ c.name ++ " has no callback function attached")
        | some _ => validateCallbacksWTO decodeArg rest

/-- The loop body of `RunWithToolsOnly[T]` from `part_014`.  The tool-set
surgery before the loop (dropping any previous sentinel, adding the derived
one, requiring tool choice) configures the request and therefore only the
provider's answers, which `turns` ranges over.  A text-only response makes
`resp.AsTools()` fail. -/
def runWTOAux {T : Type} (decodeArg : String → Except String T) (parallelism : Nat)
    (sched : Nat → Nat → List Nat) (maxDepth : Nat) :
    Nat → List (Except String ModelResp) → List prompt.Prompt →
      Except String (Result T)
  | 0, _, _ => .error ("max depth " ++ toString maxDepth ++ " reached")
  | fuel + 1, turns, prompts =>
    let i := maxDepth - (fuel + 1)
    match turns with
    | [] => .error ("failed to prompt: no provider response, at depth " ++ toString i)
    | .error e :: _ => .error ("failed to prompt: " ++ e ++ ", at depth " ++ toString i)
    | .ok (.text _) :: _ =>
      .error ("failed to get tools: response is not a tool call, at depth " ++ toString i)
    | .ok (.toolCalls callbacks) :: rest =>
      match validateCallbacksWTO decodeArg callbacks with
      | .finish (.error e) =>
        .error ("could not unmarshal final result: " ++ e ++ ", at depth " ++ toString i)
      | .finish (.ok finalResult) =>
        .ok { prompts := prompts, result := finalResult, depth := i }
      | .fail e => .error e
      | .proceed =>
        match appendResults callbacks (dispatchCallbacks parallelism sched i callbacks)
            prompts with
        | .error e => .error e
        | .ok prompts => runWTOAux decodeArg parallelism sched maxDepth fuel rest prompts

/-- `RunWithToolsOnly[T]` from `part_014`. -/
def RunWithToolsOnly {T : Type} (decodeArg : String → Except String T)
    (maxDepth parallelism : Nat) (sched : Nat → Nat → List Nat)
    (turns : List (Except String ModelResp)) (prompts : List prompt.Prompt) :
    Except String (Result T) :=
  runWTOAux decodeArg parallelism sched maxDepth maxDepth turns prompts

/-- The conversation invariant of the spec: every tool-call entry is
immediately followed by a tool-response entry with the same id and name. -/
def pairedFrom : List prompt.Prompt → Bool
  | [] => true
  | .toolCall id name _ :: rest =>
    match rest with
    | .toolResponse id2 name2 _ :: _ => id = id2 && name = name2 && pairedFrom rest
    | _ => false
  | _ :: rest => pairedFrom rest

end agent

namespace ptc

/-- The response shape `{"error": "<message>"}` the spec ascribes to
failure responses of the synthetic tool. -/
def isErrorObjectShape (s : String) : Prop :=
  ∃ m, s = jsonErrObj m

/-- The error-value shape `{error: string}` the spec ascribes to arity
errors of a bound tool function. -/
def isErrorMapValue {J : Type} (r : BindResult J) : Prop :=
  ∃ m, r = BindResult.errorMap m

end ptc

namespace gen

/-- `st` grew into `st'` by allocation only: every cell list of `st` is a
prefix of the corresponding list of `st'`. -/
def Store.Extends (st st' : Store) : Prop :=
  st.floats <+: st'.floats ∧ st.ints <+: st'.ints ∧ st.bools <+: st'.bools ∧
    st.schemas <+: st'.schemas ∧ st.toolCells <+: st'.toolCells

end gen

namespace sample

/-- A tool function fixture: the currency conversion of the repository's
mock tools, at the level the embedding observes it. -/
def convertFn : tools.Function := fun _ => ("724.50", none)

/-- The `convert_currency` mock tool of `ptc_test.go`, PTC-flagged. -/
def convertCurrencyTool : tools.Tool :=
  { name := "convert_currency"
    description := "Converts currency amounts (USD, EUR, SEK, GBP, JPY)."
    argumentSchema := some (.mk "object"
      [("to", .mk "string" [] [] none), ("amount", .mk "number" [] [] none),
        ("from", .mk "string" [] [] none)]
      ["amount", "from", "to"] none)
    responseSchema := none
    usePTC := true
    function := some convertFn }

/-- The empty store. -/
def emptyStore : gen.Store := ⟨[], [], [], [], []⟩

/-- A request with no pointer-valued parameter set and JavaScript as the
PTC target language. -/
def baseRequest : gen.Request :=
  { contextRef := none, stream := false, model := ⟨"OpenAI", "gpt-4o-mini"⟩
    systemPrompt := "", outputSchema := none, strictOutput := false
    ptcLanguage := tools.JavaScript, ptcSystemFragment := ""
    tools := [], toolConfig := none, thinkingBudget := none, thinkingParts := none
    topP := none, topK := none, temperature := none, maxTokens := none
    frequencyPenalty := none, presencePenalty := none, stopSequences := [] }

/-- A generator over `baseRequest`. -/
def baseGenerator : gen.Generator := ⟨baseRequest⟩

/-- The same generator with Python as the PTC target language. -/
def pyGenerator : gen.Generator :=
  ⟨{ baseRequest with ptcLanguage := tools.Python }⟩

/-- A generator already holding a raw PTC-flagged tool in its request (as
installed by `SetConfig`/`WithRequest`). -/
def rawToolGenerator : gen.Generator :=
  ⟨{ baseRequest with tools := [convertCurrencyTool] }⟩

/-- A model-emitted call of the currency tool. -/
def convertCall : tools.Call :=
  ⟨"c1", "convert_currency", "\x7b\"amount\": 69, \"from\": \"USD\", \"to\": \"SEK\"\x7d"⟩

/-- A provider turn answering with one tool call, its `Ref` re-wired. -/
def toolTurn : Except String agent.ModelResp :=
  .ok (.toolCalls [(convertCall, some convertCurrencyTool)])

/-- A provider turn answering with final text. -/
def textTurn : Except String agent.ModelResp := .ok (.text "done")

/-- One valid goroutine completion order per turn: every slot exactly once. -/
def rangeSched : Nat → Nat → List Nat := fun _ n => List.range n

end sample

/-! ## Helper lemmas -/

/-- String append concatenates the underlying character lists. -/
theorem go.strData_append (a b : String) : (a ++ b).data = a.data ++ b.data := by
  cases a; cases b; rfl

/-- The executable prefix test agrees with `List.IsPrefix`. -/
theorem go.isPrefixList_iff :
    ∀ n h : List Char, go.isPrefixList n h = true ↔ n <+: h := by
  intro n
  induction n with
  | nil => intro h; simp [go.isPrefixList]
  | cons c cs ih =>
    intro h
    cases h with
    | nil => simp [go.isPrefixList]
    | cons d ds =>
      simp only [go.isPrefixList, Bool.and_eq_true, decide_eq_true_eq, ih,
        List.cons_prefix_cons]

/-- The executable substring search agrees with `List.IsInfix`. -/
theorem go.containsList_iff :
    ∀ hay needle : List Char, go.containsList hay needle = true ↔ needle <:+: hay := by
  intro hay
  induction hay with
  | nil =>
    intro needle
    cases needle <;> simp [go.containsList, go.isPrefixList]
  | cons c cs ih =>
    intro needle
    simp only [go.containsList, Bool.or_eq_true, go.isPrefixList_iff, ih,
      List.infix_cons_iff]

/-- `go.strContains` decides substring containment. -/
theorem go.strContains_iff_infix (hay needle : String) :
    go.strContains hay needle = true ↔ needle.data <:+: hay.data :=
  go.containsList_iff hay.data needle.data

/-- The guardrail never modifies the code it is given (in particular it never
rewrites it into an IIFE). -/
theorem ptc.GuardRailJS_fst (code : String) : (ptc.GuardRailJS code).1 = code := by
  unfold ptc.GuardRailJS
  split_ifs <;> rfl

/-- A rejecting guardrail run, as a pair equation. -/
theorem ptc.GuardRailJS_reject_eq (code msg : String)
    (h : (ptc.GuardRailJS code).2 = some msg) :
    ptc.GuardRailJS code = (code, some msg) :=
  Prod.ext (ptc.GuardRailJS_fst code) h

/-- An accepting guardrail run, as a pair equation. -/
theorem ptc.GuardRailJS_accept_eq (code : String)
    (h : (ptc.GuardRailJS code).2 = none) :
    ptc.GuardRailJS code = (code, none) :=
  Prod.ext (ptc.GuardRailJS_fst code) h

/-- On a guardrail rejection the executor returns the rejection text with a
nil error and an untouched session. -/
theorem ptc.executor_guard_reject {σ V : Type}
    (runString : σ → String → σ × ptc.RunOutcome V)
    (marshal : V → Except String String) (st : σ) (c msg : String)
    (h : (ptc.GuardRailJS c).2 = some msg) :
    ptc.executor runString marshal st (.ok c) = (st, msg, none) := by
  simp only [ptc.executor, ptc.GuardRailJS_reject_eq c msg h]

/-- When the guardrail accepts, the executor hands exactly the submitted
code to the interpreter and post-processes its outcome. -/
theorem ptc.executor_accept_eq {σ V : Type}
    (runString : σ → String → σ × ptc.RunOutcome V)
    (marshal : V → Except String String) (st : σ) (c : String)
    (h : (ptc.GuardRailJS c).2 = none) :
    ptc.executor runString marshal st (.ok c) =
      (match runString st c with
        | (st', .panicked r) => (st', ptc.jsonPanicObj r, none)
        | (st', .failure e) => (st', ptc.jsonErrObj e, none)
        | (st', .value none) => (st', "null", none)
        | (st', .value (some v)) =>
          match marshal v with
          | .error e => (st', "", some e)
          | .ok s => (st', s, none)) := by
  simp only [ptc.executor, ptc.GuardRailJS_accept_eq c h]

/-! ## Claim theorems -/

/-- C1 (amended): every `code_execution` executor invocation whose argument
decodes returns its response with a nil Go error except for a failed
argument decode or marshal; on success the response is the JSON encoding of
the script's final expression, on an interpreter runtime error it is the
object `{"error": "<message>"}`, but on a guardrail rejection it is the
guardrail's plain `error: RuntimeError ...` text, which is not a JSON
object of that shape. -/
theorem ptc.executor_response_shapes {σ V : Type}
    (runString : σ → String → σ × ptc.RunOutcome V)
    (marshal : V → Except String String) (st : σ) (c : String) :
    (∀ msg, (ptc.GuardRailJS c).2 = some msg →
      ptc.executor runString marshal st (.ok c) = (st, msg, none)) ∧
    ((ptc.GuardRailJS c).2 = none →
      (∀ st' e, runString st c = (st', .failure e) →
        ptc.executor runString marshal st (.ok c) = (st', ptc.jsonErrObj e, none)) ∧
      (∀ st' v s, runString st c = (st', .value (some v)) → marshal v = .ok s →
        ptc.executor runString marshal st (.ok c) = (st', s, none))) := by
  refine ⟨fun msg h => ptc.executor_guard_reject runString marshal st c msg h, fun h => ⟨?_, ?_⟩⟩
  · intro st' e hrun
    rw [ptc.executor_accept_eq runString marshal st c h, hrun]
  · intro st' v s hrun hmar
    rw [ptc.executor_accept_eq runString marshal st c h, hrun]
    simp [hmar]

/-- C1 (counterexample): the empty script is a guardrail rejection, and the
executor's response for it is the plain guardrail text, not an object of the
shape `{"error": "<message>"}` (its first character is `e`, not a brace), so
the response is not the valid-JSON error object the claim requires. -/
theorem ptc.executor_guardrail_response_not_json :
    ptc.executor (fun (s : Unit) (_ : String) => (s, ptc.RunOutcome.value (none : Option Unit)))
        (fun _ => Except.ok "null") () (.ok "") = ((), ptc.guardEmptyMsg, none) ∧
      ¬ ptc.isErrorObjectShape ptc.guardEmptyMsg := by
  constructor
  · rfl
  · rintro ⟨m, hm⟩
    have h1 : ptc.guardEmptyMsg.data.head? = some 'e' := rfl
    have h2 : (ptc.jsonErrObj m).data.head? = some '\x7b' := by
      show ((("\x7b\"error\": " ++ go.quote m) ++ "\x7d")).data.head? = some '\x7b'
      rw [go.strData_append, go.strData_append]
      rfl
    rw [hm, h2] at h1
    simp at h1

/-- C1 (witness): a concrete interpreter error becomes the JSON error
object with a nil Go error. -/
theorem ptc.executor_response_shapes_witness :
    ptc.executor (fun (s : Unit) (_ : String) => (s, ptc.RunOutcome.failure (V := Unit) "x is not defined"))
        (fun _ => Except.ok "0") () (.ok "x") = ((), ptc.jsonErrObj "x is not defined", none) :=
  ((ptc.executor_response_shapes
      (fun (s : Unit) (_ : String) => (s, ptc.RunOutcome.failure (V := Unit) "x is not defined"))
      (fun _ => Except.ok "0") () "x").2 (by decide)).1 () "x is not defined" rfl

/-- C3 (counterexample): `var asyncDone = 1` contains the substring `async`,
yet the guardrail accepts it — the code only rejects `async ` (with a
trailing space), `await` and `async(`. -/
theorem ptc.guardrail_async_substring_counterexample :
    go.strContains "var asyncDone = 1" "async" = true ∧
      (ptc.GuardRailJS "var asyncDone = 1").2 = none := by
  exact ⟨by decide, by decide⟩

/-- C3 (amended): the guardrail rejects a script iff it is empty, contains
`print( ` or `console.log(`, or contains `async ` (with a trailing space),
`await` or `async(`; and every rejection is returned as the tool-call
response text with a nil Go error, never as a terminal error. -/
theorem ptc.GuardRailJS_reject_iff (code : String) :
    ((ptc.GuardRailJS code).2.isSome = true ↔
      (code = "" ∨ go.strContains code "print( " = true ∨
        go.strContains code "console.log(" = true ∨
        go.strContains code "async " = true ∨ go.strContains code "await" = true ∨
        go.strContains code "async(" = true)) ∧
    (∀ (σ V : Type) (runString : σ → String → σ × ptc.RunOutcome V)
        (marshal : V → Except String String) (st : σ) (msg : String),
      (ptc.GuardRailJS code).2 = some msg →
      ptc.executor runString marshal st (.ok code) = (st, msg, none)) := by
  constructor
  · unfold ptc.GuardRailJS
    split_ifs with h1 h2 h3 <;> simp_all [Bool.or_eq_true] <;> tauto
  · intro σ V runString marshal st msg h
    exact ptc.executor_guard_reject runString marshal st code msg h

/-- C3 (witness): the guardrail rejects `await fetch("evil")` and the
executor returns the rejection as the response text with a nil error. -/
theorem ptc.GuardRailJS_reject_iff_witness :
    (ptc.GuardRailJS "await fetch(\"evil\")").2.isSome = true ∧
      ptc.executor (fun (s : Unit) (_ : String) => (s, ptc.RunOutcome.value (none : Option Unit)))
          (fun _ => Except.ok "null") () (.ok "await fetch(\"evil\")") =
        ((), ptc.guardAsyncMsg, none) :=
  ⟨(ptc.GuardRailJS_reject_iff "await fetch(\"evil\")").1.mpr (by decide),
    (ptc.GuardRailJS_reject_iff "await fetch(\"evil\")").2 Unit Unit
      (fun (s : Unit) (_ : String) => (s, ptc.RunOutcome.value (none : Option Unit)))
      (fun _ => Except.ok "null") () ptc.guardAsyncMsg (by decide)⟩

/-- C7: the guardrail passes the script through unmodified (no IIFE
rewriting), the executor keeps the interpreter's post-state as the session
state (variables persist in the shared session across turns), and on
success the response is the encoding of the script's final expression. -/
theorem ptc.executor_no_iife_final_expression {σ V : Type}
    (runString : σ → String → σ × ptc.RunOutcome V)
    (marshal : V → Except String String) (st : σ) (code : String) :
    (ptc.GuardRailJS code).1 = code ∧
    ((ptc.GuardRailJS code).2 = none →
      (ptc.executor runString marshal st (.ok code)).1 = (runString st code).1 ∧
      (∀ st' v s, runString st code = (st', .value (some v)) → marshal v = .ok s →
        ptc.executor runString marshal st (.ok code) = (st', s, none))) := by
  refine ⟨ptc.GuardRailJS_fst code, fun h => ⟨?_, ?_⟩⟩
  · rw [ptc.executor_accept_eq runString marshal st code h]
    rcases hr : runString st code with ⟨st', out⟩
    cases out with
    | value v =>
      cases v with
      | none => rfl
      | some x => rcases hm : marshal x with e | s <;> simp [hm]
    | failure e => rfl
    | panicked r => rfl
  · intro st' v s hrun hm
    rw [ptc.executor_accept_eq runString marshal st code h, hrun]
    simp [hm]

/-- C7 (witness): a concrete success run returns the encoded final value,
unrewritten. -/
theorem ptc.executor_no_iife_final_expression_witness :
    (ptc.GuardRailJS "6*7").1 = "6*7" ∧
      ptc.executor (fun (s : Unit) (_ : String) => (s, ptc.RunOutcome.value (some 42)))
          (fun n => Except.ok (toString n)) () (.ok "6*7") = ((), "42", none) :=
  ⟨(ptc.executor_no_iife_final_expression
      (fun (s : Unit) (_ : String) => (s, ptc.RunOutcome.value (some 42)))
      (fun n => Except.ok (toString n)) () "6*7").1,
    ((ptc.executor_no_iife_final_expression
      (fun (s : Unit) (_ : String) => (s, ptc.RunOutcome.value (some 42)))
      (fun n => Except.ok (toString n)) () "6*7").2 (by decide)).2 () 42 "42" rfl rfl⟩

/-- C10: a script that passes the guardrails and completes with an
undefined (or nil) final value yields exactly the response string `null`
with a nil Go error. -/
theorem ptc.executor_undefined_null {σ V : Type}
    (runString : σ → String → σ × ptc.RunOutcome V)
    (marshal : V → Except String String) (st st' : σ) (c : String)
    (hguard : (ptc.GuardRailJS c).2 = none)
    (hrun : runString st c = (st', .value none)) :
    ptc.executor runString marshal st (.ok c) = (st', "null", none) := by
  rw [ptc.executor_accept_eq runString marshal st c hguard, hrun]

/-- C10 (witness): a concrete undefined-valued run returns `null`. -/
theorem ptc.executor_undefined_null_witness :
    ptc.executor (fun (s : Unit) (_ : String) => (s, ptc.RunOutcome.value (none : Option Unit)))
        (fun _ => Except.ok "\x7b\x7d") () (.ok "var x = 2") = ((), "null", none) :=
  ptc.executor_undefined_null
    (fun (s : Unit) (_ : String) => (s, ptc.RunOutcome.value (none : Option Unit)))
    (fun _ => Except.ok "\x7b\x7d") () () "var x = 2" (by decide) rfl

/-- C8 (amended): a bound tool invoked from script with more than one
argument returns the `{error: string}` map value and never invokes the
underlying tool function; with zero arguments it also does not invoke the
tool and nothing is thrown, but the value returned is
`vm.NewGoError(...)` — a JS Error object, not the `{error: string}` map. -/
theorem ptc.bindToolWrapper_arity {A J : Type} (toolName : String)
    (marshalArg : A → Except String String) (f g : String → String × Option String)
    (unmarshalRes : String → Option J) (args : List A) :
    (1 < args.length →
      ptc.bindToolWrapper toolName marshalArg f unmarshalRes args =
        .errorMap (ptc.bindArityMsg toolName args.length)) ∧
    (args = [] →
      ptc.bindToolWrapper toolName marshalArg f unmarshalRes args =
        .goError (ptc.bindNoArgsMsg toolName)) ∧
    (args.length ≠ 1 →
      ptc.bindToolWrapper toolName marshalArg f unmarshalRes args =
        ptc.bindToolWrapper toolName marshalArg g unmarshalRes args) := by
  refine ⟨fun h => ?_, fun h => ?_, fun h => ?_⟩
  · unfold ptc.bindToolWrapper
    rw [if_pos h]
  · subst h; rfl
  · unfold ptc.bindToolWrapper
    rcases args with _ | ⟨a, _ | ⟨b, rest⟩⟩
    · rfl
    · simp at h
    · rw [if_pos (by simp [List.length_cons]),
        if_pos (by simp [List.length_cons])]

/-- C8 (witness): two arguments yield the `{error: string}` map value for
either tool function, so the tool is not invoked. -/
theorem ptc.bindToolWrapper_arity_witness :
    ptc.bindToolWrapper (A := Unit) (J := Unit) "convert_currency"
        (fun _ => Except.ok "\x7b\x7d") (fun _ => ("724.50", none)) (fun _ => none)
        [(), ()] =
      ptc.BindResult.errorMap (ptc.bindArityMsg "convert_currency" 2) :=
  (ptc.bindToolWrapper_arity "convert_currency" (fun _ => Except.ok "\x7b\x7d")
      (fun _ => ("724.50", none)) (fun _ => ("724.50", none)) (fun _ => none)
      [(), ()]).1 (by decide)

/-- C8 (counterexample): at zero arguments the binding returns
`vm.NewGoError(...)` — a JS Error object value — which is not of the shape
`{error: string}`. -/
theorem ptc.bindToolWrapper_zero_args_not_error_map :
    ptc.bindToolWrapper (A := Unit) (J := Unit) "predict_future"
        (fun _ => Except.ok "\x7b\x7d") (fun _ => ("\"It is certain.\"", none))
        (fun _ => none) [] =
      ptc.BindResult.goError "tool predict_future requires arguments" ∧
    ¬ ptc.isErrorMapValue
        (ptc.BindResult.goError (J := Unit) "tool predict_future requires arguments") := by
  refine ⟨rfl, ?_⟩
  rintro ⟨m, hm⟩
  exact ptc.BindResult.noConfusion hm

/-- The lexicographic comparison is total. -/
theorem go.lexLe_total : ∀ a b : List Char, go.lexLe a b = true ∨ go.lexLe b a = true := by
  intro a
  induction a with
  | nil => intro b; left; rfl
  | cons x xs ih =>
    intro b
    cases b with
    | nil => right; rfl
    | cons y ys =>
      by_cases hxy : x = y
      · subst hxy
        simp only [go.lexLe, if_pos rfl]
        exact ih ys
      · rcases lt_or_gt_of_ne hxy with h | h
        · left
          simp only [go.lexLe, if_neg hxy]
          exact decide_eq_true h
        · right
          simp only [go.lexLe, if_neg (Ne.symm hxy)]
          exact decide_eq_true h

/-- The lexicographic comparison is transitive. -/
theorem go.lexLe_trans :
    ∀ a b c : List Char, go.lexLe a b = true → go.lexLe b c = true →
      go.lexLe a c = true := by
  intro a
  induction a with
  | nil => intro b c _ _; rfl
  | cons x xs ih =>
    intro b c hab hbc
    cases b with
    | nil => exact absurd hab (by simp [go.lexLe])
    | cons y ys =>
      cases c with
      | nil => exact absurd hbc (by simp [go.lexLe])
      | cons z zs =>
        by_cases hxy : x = y
        · subst hxy
          simp only [go.lexLe, if_pos rfl] at hab
          by_cases hyz : x = z
          · subst hyz
            simp only [go.lexLe, if_pos rfl] at hbc ⊢
            exact ih ys zs hab hbc
          · simp only [go.lexLe, if_neg hyz] at hbc ⊢
            exact hbc
        · simp only [go.lexLe, if_neg hxy] at hab
          have hlt : x < y := of_decide_eq_true hab
          by_cases hyz : y = z
          · subst hyz
            simp only [go.lexLe, if_neg hxy]
            exact decide_eq_true hlt
          · simp only [go.lexLe, if_neg hyz] at hbc
            have hlt2 : y < z := of_decide_eq_true hbc
            have hxz : x < z := lt_trans hlt hlt2
            simp only [go.lexLe, if_neg (ne_of_lt hxz)]
            exact decide_eq_true hxz

/-- The parameter fields produced by `extractArgs` are sorted
alphabetically by name. -/
theorem ptc.extractArgs_sorted (s : Option schema.JSON) :
    List.Sorted (fun a b : ptc.ArgField => go.strLe a.name b.name = true)
      (ptc.extractArgs s) := by
  cases s with
  | none => exact List.sorted_nil
  | some s =>
    show List.Sorted _ (if s.properties.length = 0 then [] else _)
    split_ifs with h
    · exact List.sorted_nil
    · letI : IsTotal ptc.ArgField (fun a b => go.strLe a.name b.name = true) :=
        ⟨fun a b => go.lexLe_total a.name.data b.name.data⟩
      letI : IsTrans ptc.ArgField (fun a b => go.strLe a.name b.name = true) :=
        ⟨fun a b c => go.lexLe_trans a.name.data b.name.data c.name.data⟩
      exact List.sorted_insertionSort _ _

/-- An infix of a list is an infix of any left-extension. -/
theorem go.infix_append_left {α : Type} {n l₂ : List α} (l₁ : List α)
    (h : n <:+: l₂) : n <:+: l₁ ++ l₂ := by
  obtain ⟨s, t, rfl⟩ := h
  exact ⟨l₁ ++ s, t, by simp⟩

/-- An infix of a list is an infix of any right-extension. -/
theorem go.infix_append_right {α : Type} {n l₁ : List α} (l₂ : List α)
    (h : n <:+: l₁) : n <:+: l₁ ++ l₂ := by
  obtain ⟨s, t, rfl⟩ := h
  exact ⟨s, t ++ l₂, by simp⟩

/-- Every joined element occurs as a substring of the join. -/
theorem go.strJoin_infix (sep : String) :
    ∀ (l : List String) (s : String), s ∈ l → s.data <:+: (go.strJoin sep l).data := by
  intro l
  induction l with
  | nil => intro s h; cases h
  | cons x rest ih =>
    intro s hs
    cases rest with
    | nil =>
      obtain rfl := List.mem_singleton.mp hs
      exact List.infix_refl _
    | cons y ys =>
      rcases List.mem_cons.mp hs with h | h
      · subst h
        show s.data <:+: ((s ++ sep) ++ go.strJoin sep (y :: ys)).data
        rw [go.strData_append, go.strData_append]
        exact go.infix_append_right _
          (go.infix_append_right _ (List.infix_refl s.data))
      · show s.data <:+: ((x ++ sep) ++ go.strJoin sep (y :: ys)).data
        rw [go.strData_append]
        exact go.infix_append_left _ (ih s h)

/-- For a language other than Python, Go and Lua the adapter dispatches to
the JavaScript implementation. -/
theorem ptc.AdaptToolsToPTC_ok (execFn : tools.Function) (ts : List tools.Tool)
    (language : tools.ProgramLanguage) (h1 : language ≠ tools.Python)
    (h2 : language ≠ tools.GoLang) (h3 : language ≠ tools.Lua) :
    ptc.AdaptToolsToPTC execFn ts language = .ok (ptc.adaptToolsToJSPTC execFn ts) := by
  unfold ptc.AdaptToolsToPTC
  by_cases ha : language = tools.JavaScript
  · rw [if_pos ha]
  · rw [if_neg ha, if_neg h1, if_neg h2, if_neg h3]

/-- Unfolding equation for `adaptPTCTools` in terms of the partition and the
language dispatch. -/
theorem gen.adaptPTCTools_eq (execFn : tools.Function) (b : gen.Generator)
    (ts : List tools.Tool) :
    b.adaptPTCTools execFn ts =
      (if 0 < ((ptc.ExtractPTCTools ts).2).length then
        match ptc.AdaptToolsToPTC execFn (ptc.ExtractPTCTools ts).2 b.request.ptcLanguage with
        | .error _ =>
          ({ b with request := { b.request with ptcSystemFragment := "" } },
            (ptc.ExtractPTCTools ts).1 ++ (ptc.ExtractPTCTools ts).2)
        | .ok (unifiedPTCTool, systemFragment) =>
          ({ b with request := { b.request with ptcSystemFragment := systemFragment } },
            (ptc.ExtractPTCTools ts).1 ++ [unifiedPTCTool])
      else
        ({ b with request := { b.request with ptcSystemFragment := "" } },
          (ptc.ExtractPTCTools ts).1)) := rfl

/-- C4 (amended): for every PTC adapter invocation with a non-empty set of
PTC-flagged tools and a target language other than the unimplemented
Python/Go/Lua, the tool set handed to the request is the regular tools
unchanged followed by exactly one synthetic tool named `code_execution`
replacing all PTC tools (so when no regular input tool carries that name,
exactly one tool of the output does); the generated system fragment
contains the signature of every PTC tool; and within each generated
signature the parameters are ordered alphabetically by key. -/
theorem gen.adaptPTCTools_spec (execFn : tools.Function) (b : gen.Generator)
    (ts : List tools.Tool)
    (h1 : b.request.ptcLanguage ≠ tools.Python)
    (h2 : b.request.ptcLanguage ≠ tools.GoLang)
    (h3 : b.request.ptcLanguage ≠ tools.Lua)
    (hne : 0 < ((ptc.ExtractPTCTools ts).2).length) :
    (∃ T : tools.Tool, T.name = "code_execution" ∧
      (b.adaptPTCTools execFn ts).2 = (ptc.ExtractPTCTools ts).1 ++ [T]) ∧
    ((∀ t ∈ ts, t.name = "code_execution" → t.usePTC = true) →
      ((b.adaptPTCTools execFn ts).2.filter fun t => t.name = "code_execution").length = 1) ∧
    (∀ t ∈ ts, t.usePTC = true →
      go.strContains (b.adaptPTCTools execFn ts).1.request.ptcSystemFragment
        (ptc.formatToolSignature t) = true) ∧
    (∀ t ∈ ts, t.usePTC = true →
      List.Sorted (fun a b : ptc.ArgField => go.strLe a.name b.name = true)
        (ptc.extractArgs t.argumentSchema)) := by
  have heq : b.adaptPTCTools execFn ts =
      ({ b with request := { b.request with
          ptcSystemFragment := (ptc.adaptToolsToJSPTC execFn (ptc.ExtractPTCTools ts).2).2 } },
        (ptc.ExtractPTCTools ts).1 ++
          [(ptc.adaptToolsToJSPTC execFn (ptc.ExtractPTCTools ts).2).1]) := by
    rw [gen.adaptPTCTools_eq, if_pos hne,
      ptc.AdaptToolsToPTC_ok execFn (ptc.ExtractPTCTools ts).2 b.request.ptcLanguage h1 h2 h3]
  refine ⟨⟨(ptc.adaptToolsToJSPTC execFn (ptc.ExtractPTCTools ts).2).1, rfl, by rw [heq]⟩,
    fun hnames => ?_, fun t ht hptc => ?_, fun t _ _ => ptc.extractArgs_sorted _⟩
  · rw [heq]
    simp only [List.filter_append]
    have hreg : ((ptc.ExtractPTCTools ts).1.filter fun t => t.name = "code_execution") = [] := by
      rw [List.filter_eq_nil_iff]
      intro t ht
      have htm := List.mem_filter.mp ht
      have := hnames t htm.1
      simp only [decide_eq_true_eq]
      intro hname
      have := this hname
      simp [this] at htm
    rw [hreg]
    simp [ptc.adaptToolsToJSPTC]
  · rw [heq]
    have hmem : t ∈ (ptc.ExtractPTCTools ts).2 :=
      List.mem_filter.mpr ⟨ht, by simp [hptc]⟩
    have hsig : ptc.formatToolSignature t ∈
        (ptc.ExtractPTCTools ts).2.map ptc.formatToolSignature :=
      List.mem_map_of_mem _ hmem
    have hinf := go.strJoin_infix "\n\n" _ _ hsig
    rw [go.strContains_iff_infix]
    show (ptc.formatToolSignature t).data <:+:
      (ptc.adaptToolsToJSPTC execFn (ptc.ExtractPTCTools ts).2).2.data
    show (ptc.formatToolSignature t).data <:+:
      ((("\n\n" ++ ptc.getSystemFragmentJS) ++
        "\n## Available JavaScript Tool Functions inside the runtime:\n\n") ++
        go.strJoin "\n\n" ((ptc.ExtractPTCTools ts).2.map ptc.formatToolSignature)).data
    rw [go.strData_append]
    exact go.infix_append_left _ hinf

/-- C4 (witness): adapting the mock currency tool under JavaScript puts its
signature into the system fragment and exactly one `code_execution` tool
into the output set. -/
theorem gen.adaptPTCTools_spec_witness :
    go.strContains
        ((sample.baseGenerator.adaptPTCTools sample.convertFn
            [sample.convertCurrencyTool]).1.request.ptcSystemFragment)
        (ptc.formatToolSignature sample.convertCurrencyTool) = true ∧
      (((sample.baseGenerator.adaptPTCTools sample.convertFn
          [sample.convertCurrencyTool]).2.filter
            fun t => t.name = "code_execution").length = 1) :=
  ⟨(gen.adaptPTCTools_spec sample.convertFn sample.baseGenerator [sample.convertCurrencyTool]
      (by decide) (by decide) (by decide) (by decide)).2.2.1 sample.convertCurrencyTool
      (by simp) rfl,
    (gen.adaptPTCTools_spec sample.convertFn sample.baseGenerator [sample.convertCurrencyTool]
      (by decide) (by decide) (by decide) (by decide)).2.1 (by decide)⟩

/-- C4 (counterexample): with Python as the target language the adapter
errors and the PTC tools fall through unchanged, so the tool set handed to
the request contains no tool named `code_execution` although the PTC set is
non-empty. -/
theorem gen.adaptPTCTools_python_counterexample :
    0 < ((ptc.ExtractPTCTools [sample.convertCurrencyTool]).2).length ∧
      (((sample.pyGenerator.adaptPTCTools sample.convertFn
          [sample.convertCurrencyTool]).2.filter
            fun t => t.name = "code_execution").length = 0) :=
  ⟨by decide, by decide⟩

/-- C9: `SetPTCLanguage` records the new language on the returned generator
but discards the result of `b.SetTools(bb.Request.Tools...)`, so the
returned generator's tools are NOT re-adapted: a raw PTC-flagged tool stays
in the request while a real re-adaptation (`SetTools` on the same tools)
would have replaced it with the synthetic `code_execution` tool and set the
system fragment. -/
theorem gen.setPTCLanguage_discards_readaptation :
    ((gen.Generator.SetPTCLanguage sample.convertFn sample.emptyStore
        sample.rawToolGenerator tools.JavaScript).2.request.tools.map
          fun t => t.name) = ["convert_currency"] ∧
    (gen.Generator.SetPTCLanguage sample.convertFn sample.emptyStore
        sample.rawToolGenerator tools.JavaScript).2.request.ptcLanguage =
      tools.JavaScript ∧
    (gen.Generator.SetPTCLanguage sample.convertFn sample.emptyStore
        sample.rawToolGenerator tools.JavaScript).2.request.ptcSystemFragment = "" ∧
    ((gen.Generator.SetTools sample.convertFn sample.emptyStore sample.rawToolGenerator
        sample.rawToolGenerator.request.tools).2.request.tools.map
          fun t => t.name) = ["code_execution"] :=
  ⟨by decide, by decide, by decide, by decide⟩

/-- The extension order on stores is reflexive. -/
theorem gen.extends_refl (st : gen.Store) : st.Extends st :=
  ⟨List.prefix_refl _, List.prefix_refl _, List.prefix_refl _, List.prefix_refl _,
    List.prefix_refl _⟩

/-- The extension order on stores is transitive. -/
theorem gen.extends_trans {a b c : gen.Store} (h1 : a.Extends b) (h2 : b.Extends c) :
    a.Extends c :=
  ⟨h1.1.trans h2.1, h1.2.1.trans h2.2.1, h1.2.2.1.trans h2.2.2.1,
    h1.2.2.2.1.trans h2.2.2.2.1, h1.2.2.2.2.trans h2.2.2.2.2⟩

/-- Allocating a float cell only extends the store. -/
theorem gen.allocFloat_extends (st : gen.Store) (v : Rat) :
    st.Extends (st.allocFloat v).1 :=
  ⟨List.prefix_append _ _, List.prefix_refl _, List.prefix_refl _, List.prefix_refl _,
    List.prefix_refl _⟩

/-- Allocating an int cell only extends the store. -/
theorem gen.allocInt_extends (st : gen.Store) (v : Int) :
    st.Extends (st.allocInt v).1 :=
  ⟨List.prefix_refl _, List.prefix_append _ _, List.prefix_refl _, List.prefix_refl _,
    List.prefix_refl _⟩

/-- Allocating a bool cell only extends the store. -/
theorem gen.allocBool_extends (st : gen.Store) (v : Bool) :
    st.Extends (st.allocBool v).1 :=
  ⟨List.prefix_refl _, List.prefix_refl _, List.prefix_append _ _, List.prefix_refl _,
    List.prefix_refl _⟩

/-- Allocating a schema cell only extends the store. -/
theorem gen.allocSchema_extends (st : gen.Store) (v : schema.JSON) :
    st.Extends (st.allocSchema v).1 :=
  ⟨List.prefix_refl _, List.prefix_refl _, List.prefix_refl _, List.prefix_append _ _,
    List.prefix_refl _⟩

/-- Allocating a tool cell only extends the store. -/
theorem gen.allocTool_extends (st : gen.Store) (v : tools.Tool) :
    st.Extends (st.allocTool v).1 :=
  ⟨List.prefix_refl _, List.prefix_refl _, List.prefix_refl _, List.prefix_refl _,
    List.prefix_append _ _⟩

/-- Copying a float pointer only extends the store. -/
theorem gen.cloneFloatCell_extends (st : gen.Store) (o : Option Nat) :
    st.Extends (gen.cloneFloatCell st o).1 := by
  cases o with
  | none => exact gen.extends_refl st
  | some i => exact gen.allocFloat_extends st _

/-- Copying an int pointer only extends the store. -/
theorem gen.cloneIntCell_extends (st : gen.Store) (o : Option Nat) :
    st.Extends (gen.cloneIntCell st o).1 := by
  cases o with
  | none => exact gen.extends_refl st
  | some i => exact gen.allocInt_extends st _

/-- Copying a bool pointer only extends the store. -/
theorem gen.cloneBoolCell_extends (st : gen.Store) (o : Option Nat) :
    st.Extends (gen.cloneBoolCell st o).1 := by
  cases o with
  | none => exact gen.extends_refl st
  | some i => exact gen.allocBool_extends st _

/-- Copying a schema pointer only extends the store. -/
theorem gen.cloneSchemaCell_extends (st : gen.Store) (o : Option Nat) :
    st.Extends (gen.cloneSchemaCell st o).1 := by
  cases o with
  | none => exact gen.extends_refl st
  | some i => exact gen.allocSchema_extends st _

/-- Copying a tool pointer only extends the store. -/
theorem gen.cloneToolCell_extends (st : gen.Store) (o : Option Nat) :
    st.Extends (gen.cloneToolCell st o).1 := by
  cases o with
  | none => exact gen.extends_refl st
  | some i => exact gen.allocTool_extends st _

/-- `clone` only extends the store: it allocates fresh cells and never
writes an existing one. -/
theorem gen.clone_extends (st : gen.Store) (b : gen.Generator) :
    st.Extends (b.clone st).1 := by
  refine gen.extends_trans (gen.cloneSchemaCell_extends st b.request.outputSchema) ?_
  refine gen.extends_trans (gen.cloneToolCell_extends _ b.request.toolConfig) ?_
  refine gen.extends_trans (gen.cloneFloatCell_extends _ b.request.presencePenalty) ?_
  refine gen.extends_trans (gen.cloneFloatCell_extends _ b.request.frequencyPenalty) ?_
  refine gen.extends_trans (gen.cloneFloatCell_extends _ b.request.temperature) ?_
  refine gen.extends_trans (gen.cloneFloatCell_extends _ b.request.topP) ?_
  refine gen.extends_trans (gen.cloneIntCell_extends _ b.request.topK) ?_
  refine gen.extends_trans (gen.cloneIntCell_extends _ b.request.maxTokens) ?_
  refine gen.extends_trans (gen.cloneIntCell_extends _ b.request.thinkingBudget) ?_
  exact gen.cloneBoolCell_extends _ b.request.thinkingParts

/-- `SetTools` only extends the store. -/
theorem gen.SetTools_extends (execFn : tools.Function) (st : gen.Store)
    (b : gen.Generator) (ts : List tools.Tool) :
    st.Extends (gen.Generator.SetTools execFn st b ts).1 :=
  gen.clone_extends st b

/-- Every builder call only extends the store. -/
theorem gen.applyCall_extends (execFn : tools.Function) (st : gen.Store)
    (b : gen.Generator) (c : gen.BuilderCall) :
    st.Extends (gen.applyCall execFn st b c).1 := by
  cases c with
  | model m => exact gen.clone_extends st b
  | system s => exact gen.clone_extends st b
  | output s =>
    cases s with
    | none => exact gen.clone_extends st b
    | some v =>
      exact gen.extends_trans (gen.clone_extends st b) (gen.allocSchema_extends _ v)
  | strictOutput strict => exact gen.clone_extends st b
  | setTools ts => exact gen.SetTools_extends execFn st b ts
  | addTools ts => exact gen.SetTools_extends execFn st b _
  | setToolConfig t =>
    exact gen.extends_trans (gen.clone_extends st b) (gen.allocTool_extends _ t)
  | setPTCLanguage l =>
    exact gen.extends_trans (gen.clone_extends st b) (gen.clone_extends (b.clone st).1 b)
  | stopAt stop => exact gen.clone_extends st b
  | temperature t =>
    exact gen.extends_trans (gen.clone_extends st b) (gen.allocFloat_extends _ t)
  | frequencyPenalty f =>
    exact gen.extends_trans (gen.clone_extends st b) (gen.allocFloat_extends _ f)
  | presencePenalty p =>
    exact gen.extends_trans (gen.clone_extends st b) (gen.allocFloat_extends _ p)
  | topP p =>
    exact gen.extends_trans (gen.clone_extends st b) (gen.allocFloat_extends _ p)
  | topK k =>
    exact gen.extends_trans (gen.clone_extends st b) (gen.allocInt_extends _ k)
  | withContext ctx => exact gen.clone_extends st b
  | maxTokens m =>
    exact gen.extends_trans (gen.clone_extends st b) (gen.allocInt_extends _ m)
  | thinkingBudget tb =>
    exact gen.extends_trans (gen.clone_extends st b) (gen.allocInt_extends _ tb)
  | includeThinkingParts bl =>
    exact gen.extends_trans (gen.clone_extends st b) (gen.allocBool_extends _ bl)

/-- A sequence of builder calls only extends the store. -/
theorem gen.applyCalls_extends (execFn : tools.Function) :
    ∀ (cs : List gen.BuilderCall) (st : gen.Store) (b : gen.Generator),
      st.Extends (gen.applyCalls execFn (st, b) cs).1 := by
  intro cs
  induction cs with
  | nil => intro st b; exact gen.extends_refl st
  | cons c cs ih =>
    intro st b
    show st.Extends (gen.applyCalls execFn (gen.applyCall execFn st b c) cs).1
    rcases hc : gen.applyCall execFn st b c with ⟨st', b'⟩
    refine gen.extends_trans ?_ (ih st' b')
    have := gen.applyCall_extends execFn st b c
    rwa [hc] at this

/-- Dereferencing through a prefix-extended store agrees on valid cells. -/
theorem gen.bind_get?_prefix {α : Type} {l l' : List α} {o : Option Nat}
    (h : l <+: l') (hwf : gen.WFidx l.length o) :
    (o.bind fun i => l'[i]?) = o.bind fun i => l[i]? := by
  cases o with
  | none => rfl
  | some i =>
    obtain ⟨t, rfl⟩ := h
    have hi : i < l.length := hwf
    simp only [Option.some_bind]
    exact List.getElem?_append_left hi

/-- The observable request is unchanged by any store extension, on a
well-formed request. -/
theorem gen.view_extends_eq {st st' : gen.Store} {r : gen.Request}
    (h : st.Extends st') (hwf : gen.WellFormed st r) :
    gen.view st' r = gen.view st r := by
  obtain ⟨hf, hi, hb, hs, ht⟩ := h
  unfold gen.view
  congr 1
  · exact gen.bind_get?_prefix hs hwf.outputSchema
  · exact gen.bind_get?_prefix ht hwf.toolConfig
  · exact gen.bind_get?_prefix hi hwf.thinkingBudget
  · exact gen.bind_get?_prefix hb hwf.thinkingParts
  · exact gen.bind_get?_prefix hf hwf.topP
  · exact gen.bind_get?_prefix hi hwf.topK
  · exact gen.bind_get?_prefix hf hwf.temperature
  · exact gen.bind_get?_prefix hi hwf.maxTokens
  · exact gen.bind_get?_prefix hf hwf.frequencyPenalty
  · exact gen.bind_get?_prefix hf hwf.presencePenalty

/-- C6: for every generator and every sequence of builder-method calls, the
request observable through the original generator is byte-equal to its
pre-call state: methods clone the request, allocate fresh cells for
pointer-valued parameters and copy slices, and never write a cell the
original generator can reach. -/
theorem gen.builder_calls_preserve_original_request (execFn : tools.Function)
    (cs : List gen.BuilderCall) (st : gen.Store) (g g0 : gen.Generator)
    (h : gen.WellFormed st g0.request) :
    gen.view (gen.applyCalls execFn (st, g) cs).1 g0.request =
      gen.view st g0.request :=
  gen.view_extends_eq (gen.applyCalls_extends execFn cs st g) h

/-- C6 (witness): a concrete builder chain over the base generator leaves
the base request's observable content untouched. -/
theorem gen.builder_calls_preserve_original_request_witness :
    gen.view (gen.applyCalls sample.convertFn (sample.emptyStore, sample.baseGenerator)
        [gen.BuilderCall.temperature 1, gen.BuilderCall.system "be brief",
          gen.BuilderCall.setTools [sample.convertCurrencyTool],
          gen.BuilderCall.topK 40, gen.BuilderCall.setPTCLanguage tools.Python]).1
      sample.baseGenerator.request =
      gen.view sample.emptyStore sample.baseGenerator.request :=
  gen.builder_calls_preserve_original_request sample.convertFn
    [gen.BuilderCall.temperature 1, gen.BuilderCall.system "be brief",
      gen.BuilderCall.setTools [sample.convertCurrencyTool],
      gen.BuilderCall.topK 40, gen.BuilderCall.setPTCLanguage tools.Python]
    sample.emptyStore sample.baseGenerator sample.baseGenerator
    ⟨trivial, trivial, trivial, trivial, trivial, trivial, trivial, trivial, trivial, trivial⟩

/-- Goroutine writes at other indices leave a slot untouched. -/
theorem agent.foldl_set_not_mem (f : Nat → agent.callbackResult) :
    ∀ (sched : List Nat) (init : List agent.callbackResult) (i : Nat), i ∉ sched →
      (sched.foldl (fun res j => res.set j (f j)) init)[i]? = init[i]? := by
  intro sched
  induction sched with
  | nil => intro init i _; rfl
  | cons j rest ih =>
    intro init i hi
    have hij : j ≠ i := fun h => hi (h ▸ List.mem_cons_self j rest)
    show (rest.foldl _ (init.set j (f j)))[i]? = init[i]?
    rw [ih (init.set j (f j)) i fun h => hi (List.mem_cons_of_mem j h)]
    exact List.getElem?_set_ne hij

/-- A scheduled slot ends up holding its own goroutine's write. -/
theorem agent.foldl_set_mem (f : Nat → agent.callbackResult) :
    ∀ (sched : List Nat) (init : List agent.callbackResult) (i : Nat),
      i ∈ sched → i < init.length →
      (sched.foldl (fun res j => res.set j (f j)) init)[i]? = some (f i) := by
  intro sched
  induction sched with
  | nil => intro init i hmem _; cases hmem
  | cons j rest ih =>
    intro init i hmem hlen
    by_cases hir : i ∈ rest
    · exact ih (init.set j (f j)) i hir (by rw [List.length_set]; exact hlen)
    · have hij : i = j := by
        rcases List.mem_cons.mp hmem with h | h
        · exact h
        · exact absurd h hir
      subst hij
      show (rest.foldl _ (init.set i (f i)))[i]? = some (f i)
      rw [agent.foldl_set_not_mem f rest (init.set i (f i)) i hir]
      exact List.getElem?_set_eq_of_lt (f i) hlen

/-- The sequential dispatcher, slot by slot. -/
theorem agent.seq_getElem? (calls : List (tools.Call × Option tools.Tool)) (i : Nat) :
    (agent.executeCallbacksSequential calls)[i]? =
      calls[i]?.map fun c => agent.mkCallbackResult i c := by
  unfold agent.executeCallbacksSequential
  rw [List.getElem?_map, List.getElem?_enum]
  cases calls[i]? <;> rfl

/-- C2's dispatch core: for any write schedule that covers exactly the call
indices, the parallel dispatcher produces the same result array as the
sequential one — each goroutine writes only `results[index]`, so completion
order never matters. -/
theorem agent.executeCallbacksParallel_eq_sequential (sched : List Nat)
    (calls : List (tools.Call × Option tools.Tool))
    (hs : ∀ j, j ∈ sched ↔ j < calls.length) :
    agent.executeCallbacksParallel sched calls =
      agent.executeCallbacksSequential calls := by
  apply List.ext_getElem?
  intro i
  show (sched.foldl (fun res j =>
      res.set j (agent.mkCallbackResult j (calls.getD j default)))
        (calls.map fun _ => default))[i]? = _
  by_cases hi : i < calls.length
  · rw [agent.foldl_set_mem _ sched _ i ((hs i).mpr hi)
      (by rw [List.length_map]; exact hi)]
    rw [agent.seq_getElem?]
    rcases hc : calls[i]? with _ | c
    · rw [List.getElem?_eq_none_iff] at hc
      omega
    · have hgd : calls.getD i default = c := by
        rw [List.getD_eq_getElem?_getD, hc]
        rfl
      rw [hgd]
      rfl
  · rw [agent.foldl_set_not_mem _ sched _ i fun h => hi ((hs i).mp h)]
    rw [agent.seq_getElem?, List.getElem?_map]
    have hc : calls[i]? = none := List.getElem?_eq_none (by omega)
    rw [hc]
    rfl

/-- Under a covering schedule family the turn dispatcher is the sequential
dispatcher for every parallelism value. -/
theorem agent.dispatchCallbacks_eq_seq (parallelism : Nat)
    (sched : Nat → Nat → List Nat) (i : Nat)
    (calls : List (tools.Call × Option tools.Tool))
    (hsched : ∀ d n j, j ∈ sched d n ↔ j < n) :
    agent.dispatchCallbacks parallelism sched i calls =
      agent.executeCallbacksSequential calls := by
  unfold agent.dispatchCallbacks
  split_ifs with h
  · rfl
  · exact agent.executeCallbacksParallel_eq_sequential (sched i calls.length) calls
      fun j => hsched i calls.length j

/-- Error-free results make the processing loop succeed. -/
theorem agent.appendResults_ok (calls : List (tools.Call × Option tools.Tool)) :
    ∀ (results : List agent.callbackResult) (ps : List prompt.Prompt),
      (∀ r ∈ results, r.error = none) →
      ∃ ps', agent.appendResults calls results ps = .ok ps' := by
  intro results
  induction results with
  | nil => exact fun ps _ => ⟨ps, rfl⟩
  | cons r rest ih =>
    intro ps h
    have hr : r.error = none := h r (List.mem_cons_self r rest)
    simp only [agent.appendResults, hr]
    exact ih _ fun x hx => h x (List.mem_cons_of_mem r hx)

/-- Every sequential result carries the id and name of the callback at its
index. -/
theorem agent.seq_results_match (calls : List (tools.Call × Option tools.Tool)) :
    ∀ r ∈ agent.executeCallbacksSequential calls,
      r.id = (calls.getD r.index default).1.id ∧
        r.name = (calls.getD r.index default).1.name := by
  intro r hr
  rcases List.mem_map.mp hr with ⟨p, hp, rfl⟩
  have hget := List.mem_enum_iff_getElem?.mp hp
  have hgd : calls.getD p.1 default = p.2 := by
    rw [List.getD_eq_getElem?_getD, hget]
    rfl
  constructor
  · show p.2.1.id = (calls.getD p.1 default).1.id
    rw [hgd]
  · show p.2.1.name = (calls.getD p.1 default).1.name
    rw [hgd]

/-- A paired conversation stays paired under appending, and the appended
tail is checked on its own. -/
theorem agent.pairedFrom_append :
    ∀ ps qs : List prompt.Prompt, agent.pairedFrom ps = true →
      agent.pairedFrom (ps ++ qs) = agent.pairedFrom qs := by
  intro ps
  induction ps with
  | nil => intro qs _; rfl
  | cons p rest ih =>
    intro qs hp
    cases p with
    | toolCall id name arg =>
      cases rest with
      | nil => exact Bool.noConfusion hp
      | cons q rest' =>
        cases q with
        | toolResponse id2 name2 resp =>
          have e1 : ∀ l : List prompt.Prompt,
              agent.pairedFrom (prompt.Prompt.toolCall id name arg ::
                prompt.Prompt.toolResponse id2 name2 resp :: l) =
              (decide (id = id2) && decide (name = name2) &&
                agent.pairedFrom (prompt.Prompt.toolResponse id2 name2 resp :: l)) :=
            fun l => rfl
          rw [e1 rest', Bool.and_eq_true, Bool.and_eq_true] at hp
          obtain ⟨⟨hid, hname⟩, hrest⟩ := hp
          show agent.pairedFrom
            ((prompt.Prompt.toolCall id name arg ::
              prompt.Prompt.toolResponse id2 name2 resp :: rest') ++ qs) = _
          rw [List.cons_append, List.cons_append, e1 (rest' ++ qs),
            ← List.cons_append, ih qs hrest]
          simp [hid, hname]
        | user t => exact Bool.noConfusion hp
        | assistant t => exact Bool.noConfusion hp
        | toolCall id2 name2 arg2 => exact Bool.noConfusion hp
    | user t => exact ih qs hp
    | assistant t => exact ih qs hp
    | toolResponse id name resp => exact ih qs hp

/-- Processing id/name-matching, error-free results preserves the pairing
invariant: each step appends one matching call/response pair. -/
theorem agent.appendResults_paired (calls : List (tools.Call × Option tools.Tool)) :
    ∀ (results : List agent.callbackResult) (ps ps' : List prompt.Prompt),
      (∀ r ∈ results, r.id = (calls.getD r.index default).1.id ∧
        r.name = (calls.getD r.index default).1.name) →
      agent.pairedFrom ps = true →
      agent.appendResults calls results ps = .ok ps' →
      agent.pairedFrom ps' = true := by
  intro results
  induction results with
  | nil =>
    intro ps ps' _ hp h
    cases h
    exact hp
  | cons r rest ih =>
    intro ps ps' hm hp h
    rcases he : r.error with _ | e
    · obtain ⟨hid, hname⟩ := hm r (List.mem_cons_self r rest)
      simp only [agent.appendResults, he] at h
      refine ih _ ps' (fun x hx => hm x (List.mem_cons_of_mem r hx)) ?_ h
      rw [List.append_assoc]
      rw [agent.pairedFrom_append ps _ hp]
      simp [agent.pairedFrom, hid, hname]
    · simp only [agent.appendResults, he] at h
      exact Except.noConfusion h

/-- Every conversation an agent loop run returns is paired: the loop only
ever appends matching (tool-call, tool-response) pairs in result order. -/
theorem agent.runAux_paired {T : Type} (decode : String → Except String T)
    (parallelism : Nat) (sched : Nat → Nat → List Nat) (maxDepth : Nat)
    (hsched : ∀ d n j, j ∈ sched d n ↔ j < n) :
    ∀ (fuel : Nat) (turns : List (Except String agent.ModelResp))
      (prompts : List prompt.Prompt), agent.pairedFrom prompts = true →
      ∀ res, agent.runAux decode parallelism sched maxDepth fuel turns prompts = .ok res →
        agent.pairedFrom res.prompts = true := by
  intro fuel
  induction fuel with
  | zero => intro turns prompts _ res h; exact Except.noConfusion h
  | succ fuel ih =>
    intro turns prompts hp res h
    rcases turns with _ | ⟨t, rest⟩
    · exact Except.noConfusion h
    rcases t with e | m
    · exact Except.noConfusion h
    rcases m with t | calls
    · simp only [agent.runAux] at h
      rcases hd : decode t with e | v <;> rw [hd] at h
      · exact Except.noConfusion h
      · cases h
        exact hp
    · simp only [agent.runAux] at h
      rcases hv : agent.validateCallbacks calls with _ | e <;> rw [hv] at h
      · rw [agent.dispatchCallbacks_eq_seq parallelism sched _ calls hsched] at h
        rcases ha : agent.appendResults calls
            (agent.executeCallbacksSequential calls) prompts with e | ps2 <;>
          rw [ha] at h
        · exact Except.noConfusion h
        · have hp2 := agent.appendResults_paired calls
            (agent.executeCallbacksSequential calls) prompts ps2
            (agent.seq_results_match calls) hp ha
          exact ih rest ps2 hp2 res h
      · exact Except.noConfusion h

/-- As `runAux_paired`, for the tools-only loop. -/
theorem agent.runWTOAux_paired {T : Type} (decodeArg : String → Except String T)
    (parallelism : Nat) (sched : Nat → Nat → List Nat) (maxDepth : Nat)
    (hsched : ∀ d n j, j ∈ sched d n ↔ j < n) :
    ∀ (fuel : Nat) (turns : List (Except String agent.ModelResp))
      (prompts : List prompt.Prompt), agent.pairedFrom prompts = true →
      ∀ res, agent.runWTOAux decodeArg parallelism sched maxDepth fuel turns prompts = .ok res →
        agent.pairedFrom res.prompts = true := by
  intro fuel
  induction fuel with
  | zero => intro turns prompts _ res h; exact Except.noConfusion h
  | succ fuel ih =>
    intro turns prompts hp res h
    rcases turns with _ | ⟨t, rest⟩
    · exact Except.noConfusion h
    rcases t with e | m
    · exact Except.noConfusion h
    rcases m with t | calls
    · exact Except.noConfusion h
    · simp only [agent.runWTOAux] at h
      rcases hv : agent.validateCallbacksWTO decodeArg calls with r | e | _ <;> rw [hv] at h
      · rcases r with e | v
        · exact Except.noConfusion h
        · cases h
          exact hp
      · exact Except.noConfusion h
      · rw [agent.dispatchCallbacks_eq_seq parallelism sched _ calls hsched] at h
        rcases ha : agent.appendResults calls
            (agent.executeCallbacksSequential calls) prompts with e | ps2 <;>
          rw [ha] at h
        · exact Except.noConfusion h
        · have hp2 := agent.appendResults_paired calls
            (agent.executeCallbacksSequential calls) prompts ps2
            (agent.seq_results_match calls) hp ha
          exact ih rest ps2 hp2 res h

/-- The run outcome does not depend on parallelism or write schedule. -/
theorem agent.runAux_parallelism_indep {T : Type} (decode : String → Except String T)
    (p1 p2 : Nat) (sched1 sched2 : Nat → Nat → List Nat) (maxDepth : Nat)
    (hs1 : ∀ d n j, j ∈ sched1 d n ↔ j < n)
    (hs2 : ∀ d n j, j ∈ sched2 d n ↔ j < n) :
    ∀ (fuel : Nat) (turns : List (Except String agent.ModelResp))
      (prompts : List prompt.Prompt),
      agent.runAux decode p1 sched1 maxDepth fuel turns prompts =
        agent.runAux decode p2 sched2 maxDepth fuel turns prompts := by
  intro fuel
  induction fuel with
  | zero => intro turns prompts; rfl
  | succ fuel ih =>
    intro turns prompts
    rcases turns with _ | ⟨t, rest⟩
    · rfl
    rcases t with e | m
    · rfl
    rcases m with t | calls
    · rfl
    · simp only [agent.runAux]
      rw [agent.dispatchCallbacks_eq_seq p1 sched1 _ calls hs1,
        agent.dispatchCallbacks_eq_seq p2 sched2 _ calls hs2]
      rcases hv : agent.validateCallbacks calls with _ | e
      · rcases ha : agent.appendResults calls
            (agent.executeCallbacksSequential calls) prompts with e | ps2
        · rfl
        · exact ih rest ps2
      · rfl

/-- As `runAux_parallelism_indep`, for the tools-only loop. -/
theorem agent.runWTOAux_parallelism_indep {T : Type} (decodeArg : String → Except String T)
    (p1 p2 : Nat) (sched1 sched2 : Nat → Nat → List Nat) (maxDepth : Nat)
    (hs1 : ∀ d n j, j ∈ sched1 d n ↔ j < n)
    (hs2 : ∀ d n j, j ∈ sched2 d n ↔ j < n) :
    ∀ (fuel : Nat) (turns : List (Except String agent.ModelResp))
      (prompts : List prompt.Prompt),
      agent.runWTOAux decodeArg p1 sched1 maxDepth fuel turns prompts =
        agent.runWTOAux decodeArg p2 sched2 maxDepth fuel turns prompts := by
  intro fuel
  induction fuel with
  | zero => intro turns prompts; rfl
  | succ fuel ih =>
    intro turns prompts
    rcases turns with _ | ⟨t, rest⟩
    · rfl
    rcases t with e | m
    · rfl
    rcases m with t | calls
    · rfl
    · simp only [agent.runWTOAux]
      rw [agent.dispatchCallbacks_eq_seq p1 sched1 _ calls hs1,
        agent.dispatchCallbacks_eq_seq p2 sched2 _ calls hs2]
      rcases hv : agent.validateCallbacksWTO decodeArg calls with (e1 | v) | e | _
      · rfl
      · rfl
      · rfl
      · rcases ha : agent.appendResults calls
            (agent.executeCallbacksSequential calls) prompts with e | ps2
        · rfl
        · exact ih rest ps2

/-- C2: for every run of `Run` or `RunWithToolsOnly` over an initially
paired conversation, the returned conversation pairs every tool call at
position `i` with the matching tool response at `i + 1` (same id and name);
and the whole run result — hence the order of the appended pairs — is the
sequential one for every parallelism value and write schedule. -/
theorem agent.run_conversation_pairing {T : Type} (decode : String → Except String T)
    (maxDepth parallelism : Nat) (sched : Nat → Nat → List Nat)
    (turns : List (Except String agent.ModelResp)) (prompts : List prompt.Prompt)
    (hsched : ∀ d n j, j ∈ sched d n ↔ j < n)
    (hprompts : agent.pairedFrom prompts = true) :
    (∀ res, agent.Run decode maxDepth parallelism sched turns prompts = .ok res →
      agent.pairedFrom res.prompts = true) ∧
    (∀ res, agent.RunWithToolsOnly decode maxDepth parallelism sched turns prompts = .ok res →
      agent.pairedFrom res.prompts = true) ∧
    agent.Run decode maxDepth parallelism sched turns prompts =
      agent.Run decode maxDepth 1 sched turns prompts ∧
    agent.RunWithToolsOnly decode maxDepth parallelism sched turns prompts =
      agent.RunWithToolsOnly decode maxDepth 1 sched turns prompts :=
  ⟨fun res h => agent.runAux_paired decode parallelism sched maxDepth hsched
      maxDepth turns prompts hprompts res h,
    fun res h => agent.runWTOAux_paired decode parallelism sched maxDepth hsched
      maxDepth turns prompts hprompts res h,
    agent.runAux_parallelism_indep decode parallelism 1 sched sched maxDepth
      hsched hsched maxDepth turns prompts,
    agent.runWTOAux_parallelism_indep decode parallelism 1 sched sched maxDepth
      hsched hsched maxDepth turns prompts⟩

/-- C2 (witness): a concrete two-turn run with parallelism 4 returns the
conversation with the call/response pair adjacent, matching and in emission
order, and it is paired. -/
theorem agent.run_conversation_pairing_witness :
    agent.pairedFrom [prompt.Prompt.user "LKAB earnings?",
        prompt.Prompt.toolCall "c1" "convert_currency" sample.convertCall.argument,
        prompt.Prompt.toolResponse "c1" "convert_currency" "724.50"] = true :=
  (agent.run_conversation_pairing (fun t => Except.ok t) 5 4 sample.rangeSched
      [sample.toolTurn, sample.textTurn] [prompt.Prompt.user "LKAB earnings?"]
      (fun _ _ _ => List.mem_range) rfl).1
    ⟨[prompt.Prompt.user "LKAB earnings?",
        prompt.Prompt.toolCall "c1" "convert_currency" sample.convertCall.argument,
        prompt.Prompt.toolResponse "c1" "convert_currency" "724.50"], "done", 1⟩
    rfl

/-- All-tool-call provider turns exhaust the loop's depth budget. -/
theorem agent.runAux_max_depth {T : Type} (decode : String → Except String T)
    (parallelism : Nat) (sched : Nat → Nat → List Nat) (maxDepth : Nat)
    (hsched : ∀ d n j, j ∈ sched d n ↔ j < n) :
    ∀ (fuel : Nat) (turns : List (Except String agent.ModelResp))
      (prompts : List prompt.Prompt),
      fuel ≤ turns.length →
      (∀ turn ∈ turns.take fuel, ∃ calls,
        turn = .ok (.toolCalls calls) ∧ agent.validateCallbacks calls = none ∧
          ∀ r ∈ agent.executeCallbacksSequential calls, r.error = none) →
      agent.runAux decode parallelism sched maxDepth fuel turns prompts =
        .error ("max depth " ++ toString maxDepth ++ " reached") := by
  intro fuel
  induction fuel with
  | zero => intro turns prompts _ _; rfl
  | succ fuel ih =>
    intro turns prompts hlen hall
    rcases turns with _ | ⟨t, rest⟩
    · simp at hlen
    obtain ⟨calls, rfl, hv, herr⟩ :=
      hall t (by rw [List.take_succ_cons]; exact List.mem_cons_self t _)
    simp only [agent.runAux, hv]
    rw [agent.dispatchCallbacks_eq_seq parallelism sched _ calls hsched]
    obtain ⟨ps2, ha⟩ := agent.appendResults_ok calls _ prompts herr
    rw [ha]
    exact ih rest ps2 (by simpa using hlen)
      fun turn ht => hall turn (by rw [List.take_succ_cons]; exact List.mem_cons_of_mem _ ht)

/-- C5: `Run` with `maxDepth = 0` returns the terminal "max depth 0
reached" error immediately, for every provider behaviour (so the provider
is never prompted); and whenever `maxDepth` turns elapse with only
validated, error-free tool-call responses, `Run` returns the terminal
"max depth N reached" error — an `Except.error` carries no conversation and
no result. -/
theorem agent.Run_max_depth_semantics {T : Type} (decode : String → Except String T)
    (maxDepth parallelism : Nat) (sched : Nat → Nat → List Nat)
    (turns : List (Except String agent.ModelResp)) (prompts : List prompt.Prompt)
    (hsched : ∀ d n j, j ∈ sched d n ↔ j < n) :
    (∀ (turns' : List (Except String agent.ModelResp))
        (prompts' : List prompt.Prompt),
      agent.Run decode 0 parallelism sched turns' prompts' =
        .error "max depth 0 reached") ∧
    (maxDepth ≤ turns.length →
      (∀ turn ∈ turns.take maxDepth, ∃ calls,
        turn = .ok (.toolCalls calls) ∧ agent.validateCallbacks calls = none ∧
          ∀ r ∈ agent.executeCallbacksSequential calls, r.error = none) →
      agent.Run decode maxDepth parallelism sched turns prompts =
        .error ("max depth " ++ toString maxDepth ++ " reached")) :=
  ⟨fun _ _ => rfl,
    fun hlen hall => agent.runAux_max_depth decode parallelism sched maxDepth hsched
      maxDepth turns prompts hlen hall⟩

/-- C5 (witness): with `maxDepth = 2` and a model that answers every turn
with a tool call, the loop ends in the "max depth 2 reached" error; with
`maxDepth = 0` it errs immediately. -/
theorem agent.Run_max_depth_semantics_witness :
    agent.Run (T := String) (fun t => Except.ok t) 0 0 sample.rangeSched
        [sample.textTurn] [] = .error "max depth 0 reached" ∧
      agent.Run (T := String) (fun t => Except.ok t) 2 0 sample.rangeSched
        [sample.toolTurn, sample.toolTurn] [prompt.Prompt.user "hi"] =
          .error "max depth 2 reached" :=
  ⟨(agent.Run_max_depth_semantics (fun t => Except.ok t) 2 0 sample.rangeSched
      [sample.toolTurn, sample.toolTurn] [prompt.Prompt.user "hi"]
      (fun _ _ _ => List.mem_range)).1 [sample.textTurn] [],
    (agent.Run_max_depth_semantics (fun t => Except.ok t) 2 0 sample.rangeSched
      [sample.toolTurn, sample.toolTurn] [prompt.Prompt.user "hi"]
      (fun _ _ _ => List.mem_range)).2 (by decide)
      (by
        intro turn ht
        have ht2 : turn ∈ [sample.toolTurn, sample.toolTurn] := ht
        have heq : turn = sample.toolTurn := by
          rcases List.mem_cons.mp ht2 with h | h
          · exact h
          · exact List.mem_singleton.mp h
        subst heq
        exact ⟨[(sample.convertCall, some sample.convertCurrencyTool)], rfl, rfl,
          by decide⟩)⟩
